import Mathlib

/-!
Verification development for the mod-manager backend (`src-tauri/src/main.rs`).

Paths are modelled by their component lists (`FsPath`), path components by
character lists (`Name`).  The on-disk state is modelled by a predicate
`FS : FsPath → Bool` telling which paths currently exist as directories;
`fs::rename` and `fs::remove_dir_all` act pointwise on that predicate.
The SQLite catalog is modelled by lists of rows mirroring the relevant
columns of the `assets`, `entities` and `categories` tables.
-/

namespace GMM

/-- A path component (file or directory name), as its list of characters. -/
abbrev Name := List Char

/-- A filesystem path, as its list of components. -/
abbrev FsPath := List Name

/-- The constant `DISABLED_PREFIX` from main.rs (`"DISABLED_"`). -/
def disabledMarker : Name := "DISABLED_".toList

/-- If `p` is a (boolean) prefix of `s` then `p` is at most as long as `s`. -/
theorem length_le_of_isPrefixOf {p s : Name} (hpre : p.isPrefixOf s = true) :
    p.length ≤ s.length := by
  induction p generalizing s with
  | nil => simp
  | cons a as ih =>
    cases s with
    | nil => simp [List.isPrefixOf] at hpre
    | cons b bs =>
      simp only [List.isPrefixOf, Bool.and_eq_true] at hpre
      have := ih hpre.2
      simp only [List.length_cons]
      omega

/-- Rust `str::trim_start_matches(pat)`: repeatedly strips `p` from the
front of `s` until `s` no longer starts with `p`. -/
def trimStartMatches (p s : Name) : Name :=
  if h : p ≠ [] ∧ p.isPrefixOf s = true then
    trimStartMatches p (s.drop p.length)
  else s
termination_by s.length
decreasing_by
  have hle : p.length ≤ s.length := length_le_of_isPrefixOf h.2
  have hpos : 0 < p.length := by
    cases hp : p with
    | nil => exact absurd hp h.1
    | cons a as => simp
  simp only [List.length_drop]
  omega

/-- `base.join(clean_relative_path)`: the full path a mod occupies when enabled. -/
def fullPathIfEnabled (base R : FsPath) : FsPath := base ++ R

/-- `format!("{}{}", DISABLED_PREFIX, filename)`. -/
def disabledFileName (leaf : Name) : Name := disabledMarker ++ leaf

/-- The full path a mod occupies when disabled: the `DISABLED_` prefix goes
on the leaf component only; the parent path is unchanged.  Mirrors the
`match relative_parent_path` pattern repeated at every call site of the
state-resolution logic in main.rs.  (Callers check that `R` has a file name
before using this; the `none` branch is unreachable there.) -/
def fullPathIfDisabled (base R : FsPath) : FsPath :=
  match R.getLast? with
  | none => base
  | some leaf =>
    if R.dropLast.length > 0 then base ++ R.dropLast ++ [disabledFileName leaf]
    else base ++ [disabledFileName leaf]

/-- The three possible on-disk states of a cataloged asset. -/
inductive ModState where
  | enabled
  | disabled
  | orphaned
deriving DecidableEq, Repr

/-- The enabled/disabled state resolver: the `if full_path_if_enabled.is_dir()
... else if full_path_if_disabled.is_dir() ... else ...` chain repeated in
`get_assets_for_entity`, `toggle_asset_enabled`, `create_preset`,
`apply_preset`, `update_asset_info`, `delete_asset` and `get_dashboard_stats`. -/
def resolveState (isDir : FsPath → Bool) (base R : FsPath) : ModState :=
  if isDir (fullPathIfEnabled base R) then .enabled
  else if isDir (fullPathIfDisabled base R) then .disabled
  else .orphaned

/-- The on-disk directory structure, as the set of existing directory paths. -/
abbrev FS := FsPath → Bool

/-- `fs::rename(src, dst)` on the directory set (callers only invoke it with
an existing `src` and a fresh `dst`). -/
def renameDir (fs : FS) (src dst : FsPath) : FS :=
  fun p => if p = dst then true else if p = src then false else fs p

/-- `fs::remove_dir_all(tgt)` on the directory set. -/
def removeDirAll (fs : FS) (tgt : FsPath) : FS :=
  fun p => if p = tgt then false else fs p

/-- C2: for any canonical relative path `R` and base directory, the state
resolver classifies the asset as exactly one of Enabled, Disabled or
Orphaned: Enabled iff `base/R` is a directory; otherwise Disabled iff
`base/parent(R)/DISABLED_basename(R)` is a directory; otherwise Orphaned.
In particular when both candidate paths exist the resolver picks Enabled. -/
theorem state_resolution_total (isDir : FsPath → Bool) (base R : FsPath) :
    (resolveState isDir base R = .enabled ↔
      isDir (fullPathIfEnabled base R) = true) ∧
    (resolveState isDir base R = .disabled ↔
      (isDir (fullPathIfEnabled base R) = false ∧
       isDir (fullPathIfDisabled base R) = true)) ∧
    (resolveState isDir base R = .orphaned ↔
      (isDir (fullPathIfEnabled base R) = false ∧
       isDir (fullPathIfDisabled base R) = false)) ∧
    (isDir (fullPathIfEnabled base R) = true →
      isDir (fullPathIfDisabled base R) = true →
      resolveState isDir base R = .enabled) := by
  unfold resolveState
  rcases he : isDir (fullPathIfEnabled base R) <;>
    rcases hd : isDir (fullPathIfDisabled base R) <;>
      simp [he, hd]

/-- Witness for C2: with both candidate paths present, the resolver picks
Enabled on a concrete input. -/
theorem state_resolution_total_witness :
    resolveState (fun _ => true) [] [['m']] = .enabled :=
  (state_resolution_total (fun _ => true) [] [['m']]).2.2.2 rfl rfl

/-- The result of `trim_start_matches` never starts with the stripped
pattern (length-bounded form for induction). -/
theorem trimStartMatches_clean_aux (p : Name) (hp : p ≠ []) :
    ∀ n s, s.length ≤ n → p.isPrefixOf (trimStartMatches p s) = false := by
  intro n
  induction n with
  | zero =>
    intro s hs
    rw [trimStartMatches]
    split
    · next h =>
      exfalso
      have hle := length_le_of_isPrefixOf h.2
      have hpos : 0 < p.length := List.length_pos.mpr hp
      omega
    · next h =>
      rcases Bool.eq_false_or_eq_true (p.isPrefixOf s) with ht | hf
      · exact absurd ⟨hp, ht⟩ h
      · exact hf
  | succ n ih =>
    intro s hs
    rw [trimStartMatches]
    split
    · next h =>
      apply ih
      have hle := length_le_of_isPrefixOf h.2
      have hpos : 0 < p.length := List.length_pos.mpr hp
      simp only [List.length_drop]
      omega
    · next h =>
      rcases Bool.eq_false_or_eq_true (p.isPrefixOf s) with ht | hf
      · exact absurd ⟨hp, ht⟩ h
      · exact hf

/-- The result of `trim_start_matches` never starts with the stripped pattern. -/
theorem trimStartMatches_clean (p : Name) (hp : p ≠ []) (s : Name) :
    p.isPrefixOf (trimStartMatches p s) = false :=
  trimStartMatches_clean_aux p hp s.length s le_rfl

theorem disabledMarker_ne_nil : disabledMarker ≠ [] := by decide

theorem disabledFileName_ne (leaf : Name) : disabledFileName leaf ≠ leaf := by
  intro h
  have hlen := congrArg List.length h
  have hm : disabledMarker.length = 9 := rfl
  simp only [disabledFileName, List.length_append, hm] at hlen
  omega

theorem dropLast_append_of_getLast? {α : Type} :
    ∀ {l : List α} {a : α}, l.getLast? = some a → l.dropLast ++ [a] = l := by
  intro l
  induction l with
  | nil => intro a h; simp at h
  | cons x t ih =>
    intro a h
    cases t with
    | nil =>
      simp only [List.getLast?_singleton, Option.some.injEq] at h
      simp [h]
    | cons y s =>
      rw [List.getLast?_cons_cons] at h
      have := ih h
      simpa using this

/-- The two candidate paths of an asset are always distinct (the disabled
leaf carries the 9-character `DISABLED_` prefix). -/
theorem fullPaths_ne {base R : FsPath} {leaf : Name} (h : R.getLast? = some leaf) :
    fullPathIfEnabled base R ≠ fullPathIfDisabled base R := by
  have hR : R.dropLast ++ [leaf] = R := dropLast_append_of_getLast? h
  intro he
  have h1 : (fullPathIfEnabled base R).getLast? = some leaf := by
    rw [fullPathIfEnabled, ← hR, ← List.append_assoc]
    exact List.getLast?_concat _
  have h2 : (fullPathIfDisabled base R).getLast? = some (disabledFileName leaf) := by
    simp only [fullPathIfDisabled, h]
    by_cases hp : R.dropLast.length > 0
    · rw [if_pos hp]
      exact List.getLast?_concat _
    · rw [if_neg hp]
      exact List.getLast?_concat _
  rw [he, h2] at h1
  have heq : disabledFileName leaf = leaf := by
    injection h1
  exact disabledFileName_ne leaf heq

/-- The columns of an `assets` row used by the reconciliation engine.
`folderName` models the stored `folder_name` (the canonical relative path,
with forward slashes, as its component list). -/
structure AssetRow where
  id : Nat
  entityId : Nat
  folderName : FsPath
  name : Name
deriving DecidableEq, Repr

/-- Embeds a Rust string literal used in an error message. -/
def chars (s : String) : List Char := s.toList

/-- A single-quote character (kept out of string literals). -/
def squote : Char := Char.ofNat 39

/-- `format!("'{}'", n)`. -/
def quoted (n : Name) : List Char := [squote] ++ n ++ [squote]

/-- `.display()` of a catalog-relative path, with forward slashes. -/
def renderPath : FsPath → List Char
  | [] => []
  | [n] => n
  | n :: rest => n ++ ['/'] ++ renderPath rest

/-- The error message of `toggle_asset_enabled` when neither candidate path
exists on disk (main.rs 1007-1013). -/
def toggleNotFoundMsg (assetName : Name) (dbPath ePath dPath : List Char) : List Char :=
  chars "Cannot toggle mod " ++ quoted assetName ++
  chars ": Folder not found at expected locations derived from DB path " ++
  quoted dbPath ++ chars " (Checked " ++ ePath ++ chars " and " ++ dPath ++
  chars "). Did the folder get moved or deleted?"

/-- `toggle_asset_enabled` (main.rs 948-1027): fetches the clean stored
relative path from the catalog by asset id, probes the enabled and disabled
candidate paths on disk, renames whichever exists to the other, and returns
the new enabled state.  It performs no catalog write. -/
def toggleAssetEnabled (fs : FS) (base : FsPath) (cat : List AssetRow)
    (assetId : Nat) (uiName : Name) : Except (List Char) (Bool × FS) :=
  match cat.find? (fun r => r.id == assetId) with
  | none => .error (chars "Failed to get relative path from DB for asset ID")
  | some row =>
    match row.folderName.getLast? with
    | none => .error (chars "Could not extract filename from DB path: " ++
        renderPath row.folderName)
    | some leaf =>
      if leaf = [] then
        .error (chars "Filename extracted from DB path is empty: " ++
          renderPath row.folderName)
      else
        let e := fullPathIfEnabled base row.folderName
        let d := fullPathIfDisabled base row.folderName
        if fs e then .ok (false, renameDir fs e d)
        else if fs d then .ok (true, renameDir fs d e)
        else .error (toggleNotFoundMsg uiName (renderPath row.folderName)
          (renderPath e) (renderPath d))

/-- C3: for an asset whose backing folder exists in exactly one of the two
forms on disk, toggling twice restores the original on-disk state, the first
call returns the negation of the original enabled state, and the second call
returns the original enabled state. -/
theorem toggle_round_trip (fs : FS) (base : FsPath) (cat : List AssetRow)
    (assetId : Nat) (uiName : Name) (row : AssetRow) (leaf : Name)
    (hrow : cat.find? (fun r => r.id == assetId) = some row)
    (hleaf : row.folderName.getLast? = some leaf) (hl : leaf ≠ [])
    (hone : (fs (fullPathIfEnabled base row.folderName) = true ∧
             fs (fullPathIfDisabled base row.folderName) = false) ∨
            (fs (fullPathIfEnabled base row.folderName) = false ∧
             fs (fullPathIfDisabled base row.folderName) = true)) :
    ∃ fs1 fs2,
      toggleAssetEnabled fs base cat assetId uiName =
        .ok (!(fs (fullPathIfEnabled base row.folderName)), fs1) ∧
      toggleAssetEnabled fs1 base cat assetId uiName =
        .ok (fs (fullPathIfEnabled base row.folderName), fs2) ∧
      ∀ p, fs2 p = fs p := by
  have hne := @fullPaths_ne base row.folderName leaf hleaf
  set e := fullPathIfEnabled base row.folderName with hedef
  set d := fullPathIfDisabled base row.folderName with hddef
  rcases hone with ⟨h1, h2⟩ | ⟨h1, h2⟩
  · have he' : renameDir fs e d e = false := by
      simp [renameDir, hne]
    have hd' : renameDir fs e d d = true := by
      simp [renameDir]
    refine ⟨renameDir fs e d, renameDir (renameDir fs e d) d e, ?_, ?_, ?_⟩
    · simp only [toggleAssetEnabled, hrow, hleaf, ← hedef, ← hddef]
      simp [hl, h1]
    · simp only [toggleAssetEnabled, hrow, hleaf, ← hedef, ← hddef]
      simp [hl, he', hd', h1]
    · intro p
      simp only [renameDir]
      by_cases hpe : p = e
      · subst hpe
        rw [if_pos rfl, h1]
      · by_cases hpd : p = d
        · subst hpd
          rw [if_neg (Ne.symm hne), if_pos rfl, h2]
        · rw [if_neg hpe, if_neg hpd, if_neg hpd, if_neg hpe]
  · have he' : renameDir fs d e e = true := by
      simp [renameDir]
    refine ⟨renameDir fs d e, renameDir (renameDir fs d e) e d, ?_, ?_, ?_⟩
    · simp only [toggleAssetEnabled, hrow, hleaf, ← hedef, ← hddef]
      simp [hl, h1, h2]
    · simp only [toggleAssetEnabled, hrow, hleaf, ← hedef, ← hddef]
      simp [hl, he', h1]
    · intro p
      simp only [renameDir]
      by_cases hpd : p = d
      · subst hpd
        rw [if_pos rfl, h2]
      · by_cases hpe : p = e
        · subst hpe
          rw [if_neg hne, if_pos rfl, h1]
        · rw [if_neg hpd, if_neg hpe, if_neg hpe, if_neg hpd]

/-- Witness for C3 at a concrete enabled asset. -/
theorem toggle_round_trip_witness :
    ∃ fs1 fs2,
      toggleAssetEnabled (fun p => p == [['m']]) [] [⟨1, 1, [['m']], ['m']⟩] 1 ['m'] =
        .ok (!((fun p : FsPath => p == [['m']]) (fullPathIfEnabled [] [['m']])), fs1) ∧
      toggleAssetEnabled fs1 [] [⟨1, 1, [['m']], ['m']⟩] 1 ['m'] =
        .ok ((fun p : FsPath => p == [['m']]) (fullPathIfEnabled [] [['m']]), fs2) ∧
      ∀ p, fs2 p = (fun p : FsPath => p == [['m']]) p :=
  toggle_round_trip (fun p => p == [['m']]) [] [⟨1, 1, [['m']], ['m']⟩] 1 ['m']
    ⟨1, 1, [['m']], ['m']⟩ ['m'] (by decide) (by decide) (by decide)
    (Or.inl ⟨by decide, by decide⟩)

/-! ## Scan / reconciliation (`scan_mods_directory`) -/

/-- One mod-root directory discovered by the scan walk (a directory passing
`has_ini_file`, not descended into), together with the result of looking the
deduced entity slug up in `entity_slug_to_id` (`none` when the slug is
unknown, counted as an error and skipped) and the deduced display name used
on insert.  The walk and `deduce_mod_info_v2` are deterministic in the
filesystem, so a scan run is determined by this sequence. -/
structure ScanItem where
  relPath : FsPath
  entityId : Option Nat
  modName : Name
deriving DecidableEq, Repr

/-- The canonical relative path stored by the scan (main.rs 1223-1231): the
leaf component is stripped of any `DISABLED_` prefix before storing. -/
def canonicalRelPath (p : FsPath) : FsPath :=
  match p.getLast? with
  | none => []
  | some leaf => p.dropLast ++ [trimStartMatches disabledMarker leaf]

/-- The `SELECT id FROM assets WHERE entity_id = ?1 AND folder_name = ?2`
lookup (first matching row). -/
def findAsset (rows : List AssetRow) (eid : Nat) (canon : FsPath) : Option AssetRow :=
  rows.find? (fun r => r.entityId == eid && r.folderName == canon)

/-- Mutable state of the scan walk loop (main.rs 1181-1287). -/
structure ScanState where
  rows : List AssetRow
  nextId : Nat
  found : List Nat
  processedPaths : List FsPath
  added : Nat
  errors : Nat
deriving Repr

/-- One iteration of the scan walk: skip already-processed paths, look the
asset up by `(entity_id, canonical_path)`; on a hit only mark the id as
found, otherwise insert a new row under the next fresh rowid and mark it. -/
def scanStep (s : ScanState) (item : ScanItem) : ScanState :=
  if s.processedPaths.contains item.relPath then s
  else
    let s1 := { s with processedPaths := item.relPath :: s.processedPaths }
    match item.entityId with
    | none => { s1 with errors := s1.errors + 1 }
    | some eid =>
      let canon := canonicalRelPath item.relPath
      match findAsset s1.rows eid canon with
      | some r => { s1 with found := r.id :: s1.found }
      | none =>
        { s1 with
            rows := s1.rows ++ [⟨s1.nextId, eid, canon, item.modName⟩],
            found := s1.nextId :: s1.found,
            added := s1.added + 1,
            nextId := s1.nextId + 1 }

/-- Result summary of one scan run. -/
structure ScanResult where
  rows : List AssetRow
  added : Nat
  pruned : Nat
  errors : Nat
  nextId : Nat
deriving Repr

/-- `scan_mods_directory` (main.rs 1104-1367) reduced to its catalog
effects: snapshot the initial asset ids, fold the walk over the discovered
mod roots, then prune (bulk delete) every initially-present id that was not
marked as found. -/
def scanMods (rows : List AssetRow) (nextId : Nat) (items : List ScanItem) : ScanResult :=
  let s := items.foldl scanStep ⟨rows, nextId, [], [], 0, 0⟩
  let orphans := (rows.map AssetRow.id).filter (fun i => !(s.found.contains i))
  let rowsAfter := s.rows.filter (fun r => !(orphans.contains r.id))
  ⟨rowsAfter, s.added, orphans.length, s.errors, s.nextId⟩

theorem find?_append_of_eq_some {α : Type} {l l2 : List α} {p : α → Bool} {a : α}
    (h : l.find? p = some a) : (l ++ l2).find? p = some a := by
  induction l with
  | nil => simp at h
  | cons x t ih =>
    by_cases hx : p x
    · rw [List.find?_cons_of_pos _ hx] at h
      rw [List.cons_append, List.find?_cons_of_pos _ hx]
      exact h
    · rw [List.find?_cons_of_neg _ hx] at h
      rw [List.cons_append, List.find?_cons_of_neg _ hx]
      exact ih h

theorem find?_append_none {α : Type} {l l2 : List α} {p : α → Bool}
    (h : l.find? p = none) : (l ++ l2).find? p = l2.find? p := by
  induction l with
  | nil => simp
  | cons x t ih =>
    by_cases hx : p x
    · rw [List.find?_cons_of_pos _ hx] at h
      exact absurd h (by simp)
    · rw [List.find?_cons_of_neg _ hx] at h
      rw [List.cons_append, List.find?_cons_of_neg _ hx]
      exact ih h

theorem find?_filter_of_eq_some {α : Type} {l : List α} {p q : α → Bool} {a : α}
    (h : l.find? p = some a) (hq : q a = true) :
    (l.filter q).find? p = some a := by
  induction l with
  | nil => simp at h
  | cons x t ih =>
    by_cases hx : p x
    · rw [List.find?_cons_of_pos _ hx] at h
      injection h with h
      subst h
      rw [List.filter_cons, if_pos hq, List.find?_cons_of_pos _ hx]
    · rw [List.find?_cons_of_neg _ hx] at h
      rw [List.filter_cons]
      by_cases hqx : q x = true
      · rw [if_pos hqx, List.find?_cons_of_neg _ hx]
        exact ih h
      · rw [if_neg hqx]
        exact ih h

theorem contains_true_iff {α : Type} [BEq α] [LawfulBEq α] {l : List α} {a : α} :
    l.contains a = true ↔ a ∈ l :=
  List.elem_iff

/-- Rows only ever grow (by appending) during the scan walk. -/
theorem scanStep_rows_sub (s : ScanState) (it : ScanItem) :
    ∃ ext, (scanStep s it).rows = s.rows ++ ext := by
  by_cases hc : it.relPath ∈ s.processedPaths
  · exact ⟨[], by simp [scanStep, hc]⟩
  · cases hit : it.entityId with
    | none => exact ⟨[], by simp [scanStep, hc, hit]⟩
    | some eid =>
      cases hfind : findAsset s.rows eid (canonicalRelPath it.relPath) with
      | some r => exact ⟨[], by simp [scanStep, hc, hit, hfind]⟩
      | none =>
        exact ⟨[⟨s.nextId, eid, canonicalRelPath it.relPath, it.modName⟩],
          by simp [scanStep, hc, hit, hfind]⟩

theorem scan_foldl_rows_sub :
    ∀ (l : List ScanItem) (s : ScanState),
      ∃ ext, (l.foldl scanStep s).rows = s.rows ++ ext := by
  intro l
  induction l with
  | nil => intro s; exact ⟨[], by simp⟩
  | cons it rest ih =>
    intro s
    obtain ⟨ext1, h1⟩ := scanStep_rows_sub s it
    obtain ⟨ext2, h2⟩ := ih (scanStep s it)
    exact ⟨ext1 ++ ext2, by rw [List.foldl_cons, h2, h1, List.append_assoc]⟩

/-- The found set only ever grows during the scan walk. -/
theorem scanStep_found_sub (s : ScanState) (it : ScanItem) {i : Nat}
    (h : i ∈ s.found) : i ∈ (scanStep s it).found := by
  by_cases hc : it.relPath ∈ s.processedPaths
  · simpa [scanStep, hc] using h
  · cases hit : it.entityId with
    | none => simpa [scanStep, hc, hit] using h
    | some eid =>
      cases hfind : findAsset s.rows eid (canonicalRelPath it.relPath) with
      | some r =>
        simp only [scanStep, hc, hit, hfind, if_neg]
        simp [hc]
        right
        exact h
      | none =>
        simp only [scanStep, hc, hit, hfind, if_neg]
        simp [hc]
        right
        exact h

theorem scan_foldl_found_sub :
    ∀ (l : List ScanItem) (s : ScanState) {i : Nat},
      i ∈ s.found → i ∈ (l.foldl scanStep s).found := by
  intro l
  induction l with
  | nil => intro s i h; simpa using h
  | cons it rest ih =>
    intro s i h
    rw [List.foldl_cons]
    exact ih _ (scanStep_found_sub s it h)

/-- Every row present after a walk step was either present before the step
or was just inserted (and then its id is in the found set). -/
theorem scanStep_rows_mem (s : ScanState) (it : ScanItem) {r : AssetRow}
    (h : r ∈ (scanStep s it).rows) : r ∈ s.rows ∨ r.id ∈ (scanStep s it).found := by
  by_cases hc : it.relPath ∈ s.processedPaths
  · left
    simpa [scanStep, hc] using h
  · cases hit : it.entityId with
    | none =>
      left
      simpa [scanStep, hc, hit] using h
    | some eid =>
      cases hfind : findAsset s.rows eid (canonicalRelPath it.relPath) with
      | some r0 =>
        left
        simpa [scanStep, hc, hit, hfind] using h
      | none =>
        simp only [scanStep, hc, hit, hfind] at h ⊢
        simp [hc] at h ⊢
        rcases h with h | h
        · exact Or.inl h
        · exact Or.inr (Or.inl (by rw [h]))

theorem scan_foldl_rows_mem :
    ∀ (l : List ScanItem) (s : ScanState) {r : AssetRow},
      r ∈ (l.foldl scanStep s).rows → r ∈ s.rows ∨ r.id ∈ (l.foldl scanStep s).found := by
  intro l
  induction l with
  | nil => intro s r h; exact Or.inl (by simpa using h)
  | cons it rest ih =>
    intro s r h
    rw [List.foldl_cons] at h ⊢
    rcases ih (scanStep s it) h with h' | h'
    · rcases scanStep_rows_mem s it h' with h'' | h''
      · exact Or.inl h''
      · exact Or.inr (scan_foldl_found_sub rest _ h'')
    · exact Or.inr h'

/-- Simulation of a second scan run against the first: if the catalog fed to
the second run is the first run's final catalog (where, post-prune, every
found row survives), the second run inserts nothing and re-finds every id
the first run found. -/
theorem scan_run2_aux (S : ScanState) (keep : AssetRow → Bool)
    (hkeep : ∀ r : AssetRow, r.id ∈ S.found → keep r = true) :
    ∀ (l : List ScanItem) (s t : ScanState),
      l.foldl scanStep s = S →
      t.rows = S.rows.filter keep →
      t.processedPaths = s.processedPaths →
      (∀ i ∈ s.found, i ∈ t.found) →
      (l.foldl scanStep t).rows = S.rows.filter keep ∧
      (l.foldl scanStep t).added = t.added ∧
      (∀ i ∈ S.found, i ∈ (l.foldl scanStep t).found) := by
  intro l
  induction l with
  | nil =>
    intro s t hS ht hproc hsub
    refine ⟨by simpa using ht, by simp, ?_⟩
    intro i hi
    rw [← hS] at hi
    simp only [List.foldl_nil] at hi ⊢
    exact hsub i hi
  | cons it rest ih =>
    intro s t hS ht hproc hsub
    rw [List.foldl_cons] at hS ⊢
    by_cases hc : it.relPath ∈ s.processedPaths
    · have hct : it.relPath ∈ t.processedPaths := by rw [hproc]; exact hc
      have hss : scanStep s it = s := by simp [scanStep, hc]
      have hst : scanStep t it = t := by simp [scanStep, hct]
      rw [hss] at hS
      rw [hst]
      exact ih s t hS ht hproc hsub
    · have hct : it.relPath ∉ t.processedPaths := by rw [hproc]; exact hc
      cases hit : it.entityId with
      | none =>
        have hss : scanStep s it =
            { s with processedPaths := it.relPath :: s.processedPaths,
                     errors := s.errors + 1 } := by
          simp [scanStep, hc, hit]
        have hst : scanStep t it =
            { t with processedPaths := it.relPath :: t.processedPaths,
                     errors := t.errors + 1 } := by
          simp [scanStep, hct, hit]
        rw [hss] at hS
        rw [hst]
        obtain ⟨c1, c2, c3⟩ := ih
          { s with processedPaths := it.relPath :: s.processedPaths,
                   errors := s.errors + 1 }
          { t with processedPaths := it.relPath :: t.processedPaths,
                   errors := t.errors + 1 }
          hS (by exact ht) (by dsimp only; rw [hproc])
          (by intro i hi; exact hsub i hi)
        exact ⟨c1, c2, c3⟩
      | some eid =>
        cases hfind : findAsset s.rows eid (canonicalRelPath it.relPath) with
        | some r =>
          have hss : scanStep s it =
              { s with processedPaths := it.relPath :: s.processedPaths,
                       found := r.id :: s.found } := by
            simp [scanStep, hc, hit, hfind]
          obtain ⟨ext, hext⟩ := scan_foldl_rows_sub rest (scanStep s it)
          rw [hss] at hS hext
          rw [hS] at hext
          dsimp only at hext
          have hidS : r.id ∈ S.found := by
            rw [← hS]
            apply scan_foldl_found_sub
            simp
          have hfindS : findAsset S.rows eid (canonicalRelPath it.relPath) = some r := by
            rw [hext]
            exact find?_append_of_eq_some hfind
          have hfind1 : findAsset (S.rows.filter keep) eid (canonicalRelPath it.relPath)
              = some r :=
            find?_filter_of_eq_some hfindS (hkeep r hidS)
          have hfindt : findAsset t.rows eid (canonicalRelPath it.relPath) = some r := by
            rw [ht]; exact hfind1
          have hst : scanStep t it =
              { t with processedPaths := it.relPath :: t.processedPaths,
                       found := r.id :: t.found } := by
            simp [scanStep, hct, hit, hfindt]
          rw [hst]
          obtain ⟨c1, c2, c3⟩ := ih
            { s with processedPaths := it.relPath :: s.processedPaths,
                     found := r.id :: s.found }
            { t with processedPaths := it.relPath :: t.processedPaths,
                     found := r.id :: t.found }
            hS (by exact ht) (by dsimp only; rw [hproc])
            (by
              intro i hi
              dsimp only at hi ⊢
              rcases List.mem_cons.mp hi with hi | hi
              · exact List.mem_cons.mpr (Or.inl hi)
              · exact List.mem_cons.mpr (Or.inr (hsub i hi)))
          exact ⟨c1, c2, c3⟩
        | none =>
          have hss : scanStep s it =
              { s with processedPaths := it.relPath :: s.processedPaths,
                       rows := s.rows ++
                         [⟨s.nextId, eid, canonicalRelPath it.relPath, it.modName⟩],
                       found := s.nextId :: s.found,
                       added := s.added + 1,
                       nextId := s.nextId + 1 } := by
            simp [scanStep, hc, hit, hfind]
          obtain ⟨ext, hext⟩ := scan_foldl_rows_sub rest (scanStep s it)
          rw [hss] at hS hext
          rw [hS] at hext
          dsimp only at hext
          have hidS : (s.nextId : Nat) ∈ S.found := by
            rw [← hS]
            apply scan_foldl_found_sub
            simp
          have hfindNew : findAsset (s.rows ++
              [⟨s.nextId, eid, canonicalRelPath it.relPath, it.modName⟩]) eid
              (canonicalRelPath it.relPath) =
              some ⟨s.nextId, eid, canonicalRelPath it.relPath, it.modName⟩ := by
            unfold findAsset at hfind ⊢
            rw [find?_append_none hfind]
            simp
          have hfindS : findAsset S.rows eid (canonicalRelPath it.relPath) =
              some ⟨s.nextId, eid, canonicalRelPath it.relPath, it.modName⟩ := by
            rw [hext]
            exact find?_append_of_eq_some hfindNew
          have hfind1 : findAsset (S.rows.filter keep) eid (canonicalRelPath it.relPath) =
              some ⟨s.nextId, eid, canonicalRelPath it.relPath, it.modName⟩ :=
            find?_filter_of_eq_some hfindS (hkeep _ hidS)
          have hfindt : findAsset t.rows eid (canonicalRelPath it.relPath) =
              some ⟨s.nextId, eid, canonicalRelPath it.relPath, it.modName⟩ := by
            rw [ht]; exact hfind1
          have hst : scanStep t it =
              { t with processedPaths := it.relPath :: t.processedPaths,
                       found := s.nextId :: t.found } := by
            simp [scanStep, hct, hit, hfindt]
          rw [hst]
          obtain ⟨c1, c2, c3⟩ := ih
            { s with processedPaths := it.relPath :: s.processedPaths,
                     rows := s.rows ++
                       [⟨s.nextId, eid, canonicalRelPath it.relPath, it.modName⟩],
                     found := s.nextId :: s.found,
                     added := s.added + 1,
                     nextId := s.nextId + 1 }
            { t with processedPaths := it.relPath :: t.processedPaths,
                     found := s.nextId :: t.found }
            hS (by exact ht) (by dsimp only; rw [hproc])
            (by
              intro i hi
              dsimp only at hi ⊢
              rcases List.mem_cons.mp hi with hi | hi
              · exact List.mem_cons.mpr (Or.inl hi)
              · exact List.mem_cons.mpr (Or.inr (hsub i hi)))
          exact ⟨c1, c2, c3⟩

/-- C4: running the scan twice in a row over the same discovered mod roots
(no filesystem change between the runs) adds zero new assets and prunes
zero assets on the second run. -/
theorem scan_idempotent (rows0 : List AssetRow) (nextId0 : Nat)
    (items : List ScanItem) :
    (scanMods (scanMods rows0 nextId0 items).rows
        (scanMods rows0 nextId0 items).nextId items).added = 0 ∧
    (scanMods (scanMods rows0 nextId0 items).rows
        (scanMods rows0 nextId0 items).nextId items).pruned = 0 := by
  set init1 : ScanState := ⟨rows0, nextId0, [], [], 0, 0⟩ with hinit1
  set S := items.foldl scanStep init1 with hSdef
  set orphans := (rows0.map AssetRow.id).filter (fun i => !(S.found.contains i))
    with horph
  set keep : AssetRow → Bool := fun r => !(orphans.contains r.id) with hkeepdef
  set rows1 := S.rows.filter keep with hrows1
  have hres1 : scanMods rows0 nextId0 items =
      ⟨rows1, S.added, orphans.length, S.errors, S.nextId⟩ := rfl
  have hkeep : ∀ r : AssetRow, r.id ∈ S.found → keep r = true := by
    intro r hr
    have hno : r.id ∉ orphans := by
      intro hmem
      rw [horph] at hmem
      have h2 := List.of_mem_filter hmem
      simp only [Bool.not_eq_true'] at h2
      rw [contains_true_iff.mpr hr] at h2
      simp at h2
    rw [hkeepdef]
    simpa using hno
  set init2 : ScanState := ⟨rows1, S.nextId, [], [], 0, 0⟩ with hinit2
  set T := items.foldl scanStep init2 with hTdef
  set orphans2 := (rows1.map AssetRow.id).filter (fun i => !(T.found.contains i))
    with horph2
  have hres2 : scanMods rows1 S.nextId items =
      ⟨T.rows.filter (fun r => !(orphans2.contains r.id)),
        T.added, orphans2.length, T.errors, T.nextId⟩ := rfl
  have hsim := scan_run2_aux S keep hkeep items init1 init2
      hSdef.symm (by rw [hinit2, hrows1]) rfl (by intro i hi; simp [hinit1] at hi)
  obtain ⟨hrowsT, haddedT, hfoundT⟩ := hsim
  rw [← hTdef] at haddedT hfoundT
  rw [hres1]
  dsimp only
  rw [hres2]
  dsimp only
  constructor
  · rw [haddedT, hinit2]
  · rw [List.length_eq_zero, horph2, List.filter_eq_nil_iff]
    intro i hi
    simp only [List.mem_map] at hi
    obtain ⟨r, hrmem, hrid⟩ := hi
    have hrmem' := hrmem
    rw [hrows1] at hrmem'
    have hrS : r ∈ S.rows := List.mem_of_mem_filter hrmem'
    have hkeepr : keep r = true := List.of_mem_filter hrmem'
    have hfoundS : r.id ∈ S.found := by
      rcases scan_foldl_rows_mem items init1 hrS with h0 | hf
      · rw [hinit1] at h0
        dsimp only at h0
        by_cases hSf : r.id ∈ S.found
        · exact hSf
        · exfalso
          have hin : r.id ∈ orphans := by
            rw [horph]
            apply List.mem_filter_of_mem (List.mem_map_of_mem AssetRow.id h0)
            simpa using hSf
          rw [hkeepdef] at hkeepr
          simp only at hkeepr
          simp at hkeepr
          exact hkeepr hin
      · exact hf
    have hTf : r.id ∈ T.found := hfoundT r.id hfoundS
    subst hrid
    simp
    exact hTf

/-! ## Presets (`create_preset`, `apply_preset`) -/

/-- `fullPathIfDisabled` in its branch-free form (for a path with a leaf). -/
theorem fullPathIfDisabled_eq {base R : FsPath} {leaf : Name}
    (h : R.getLast? = some leaf) :
    fullPathIfDisabled base R = base ++ R.dropLast ++ [disabledFileName leaf] := by
  simp only [fullPathIfDisabled, h]
  by_cases hp : R.dropLast.length > 0
  · rw [if_pos hp]
  · rw [if_neg hp]
    have hnil : R.dropLast = [] := by
      cases hdrop : R.dropLast with
      | nil => rfl
      | cons x xs => rw [hdrop] at hp; simp at hp
    rw [hnil]
    simp

theorem isPrefixOf_append_left (p t : Name) : p.isPrefixOf (p ++ t) = true := by
  induction p with
  | nil => simp [List.isPrefixOf]
  | cons a as ih => simp [List.isPrefixOf, ih]

theorem append_singleton_inj {α : Type} {l1 l2 : List α} {x y : α}
    (h : l1 ++ [x] = l2 ++ [y]) : l1 = l2 ∧ x = y := by
  have hlen : l1.length = l2.length := by
    have := congrArg List.length h
    simp at this
    omega
  obtain ⟨h1, h2⟩ := List.append_inj h hlen
  exact ⟨h1, by simpa using h2⟩

/-- An enabled candidate path never collides with a disabled candidate path
of an asset whose stored leaf is clean (no `DISABLED_` prefix). -/
theorem enabled_ne_disabled_of_clean {base Ra Rb : FsPath} {la lb : Name}
    (ha : Ra.getLast? = some la) (hb : Rb.getLast? = some lb)
    (hclean : disabledMarker.isPrefixOf la = false) :
    fullPathIfEnabled base Ra ≠ fullPathIfDisabled base Rb := by
  intro h
  rw [fullPathIfEnabled, fullPathIfDisabled_eq hb, List.append_assoc] at h
  have h2 : Ra = Rb.dropLast ++ [disabledFileName lb] := List.append_cancel_left h
  have h3 : Ra.getLast? = some (disabledFileName lb) := by
    rw [h2]; exact List.getLast?_concat _
  rw [ha] at h3
  injection h3 with h3
  rw [h3, disabledFileName, isPrefixOf_append_left] at hclean
  simp at hclean

/-- Distinct stored paths have distinct enabled candidate paths. -/
theorem enabled_ne_enabled {base Ra Rb : FsPath} (hne : Ra ≠ Rb) :
    fullPathIfEnabled base Ra ≠ fullPathIfEnabled base Rb := by
  intro h
  exact hne (List.append_cancel_left h)

/-- Distinct stored paths have distinct disabled candidate paths. -/
theorem disabled_ne_disabled {base Ra Rb : FsPath} {la lb : Name}
    (ha : Ra.getLast? = some la) (hb : Rb.getLast? = some lb) (hne : Ra ≠ Rb) :
    fullPathIfDisabled base Ra ≠ fullPathIfDisabled base Rb := by
  intro h
  rw [fullPathIfDisabled_eq ha, fullPathIfDisabled_eq hb,
    List.append_assoc, List.append_assoc] at h
  have h2 := List.append_cancel_left h
  obtain ⟨hd, hx⟩ := append_singleton_inj h2
  have hll : la = lb := by
    have hx2 : disabledMarker ++ la = disabledMarker ++ lb := by
      simpa [disabledFileName] using hx
    exact List.append_cancel_left hx2
  apply hne
  rw [← dropLast_append_of_getLast? ha, ← dropLast_append_of_getLast? hb, hd, hll]

theorem resolveState_eq_enabled {isDir : FsPath → Bool} {base R : FsPath} :
    resolveState isDir base R = .enabled ↔
    isDir (fullPathIfEnabled base R) = true := by
  unfold resolveState
  rcases he : isDir (fullPathIfEnabled base R) <;>
    rcases hd : isDir (fullPathIfDisabled base R) <;> simp [he, hd]

theorem resolveState_eq_disabled {isDir : FsPath → Bool} {base R : FsPath} :
    resolveState isDir base R = .disabled ↔
    (isDir (fullPathIfEnabled base R) = false ∧
     isDir (fullPathIfDisabled base R) = true) := by
  unfold resolveState
  rcases he : isDir (fullPathIfEnabled base R) <;>
    rcases hd : isDir (fullPathIfDisabled base R) <;> simp [he, hd]

/-- Rust `str::trim` (whitespace stripped from both ends). -/
def trimSpaces (n : Name) : Name :=
  ((n.dropWhile Char.isWhitespace).reverse.dropWhile Char.isWhitespace).reverse

/-- Lowercasing used by the `LOWER(name) = LOWER(?1)` duplicate check. -/
def lowerName (n : Name) : Name := n.map Char.toLower

/-- `create_preset` (main.rs 2158-2253) reduced to its catalog reads and
writes: after the empty-name and case-insensitive duplicate checks it
records, for every asset whose folder exists on disk in one of the two
forms, the membership pair `(asset_id, is_currently_enabled)`; assets whose
folder is missing (orphaned) or whose stored path has no file name are
skipped with a warning. -/
def createPreset (pname : Name) (existing : List Name) (fs : FS) (base : FsPath)
    (cat : List AssetRow) : Except (List Char) (List (Nat × Bool)) :=
  let name := trimSpaces pname
  if name = [] then .error (chars "Preset name cannot be empty.")
  else if existing.any (fun e => lowerName e == lowerName name) then
    .error (chars "Preset name " ++ quoted name ++ chars " already exists.")
  else .ok (cat.filterMap (fun r =>
    match r.folderName.getLast? with
    | none => none
    | some leaf =>
      if leaf = [] then none
      else
        match resolveState fs base r.folderName with
        | .enabled => some (r.id, true)
        | .disabled => some (r.id, false)
        | .orphaned => none))

/-- The `preset_assets JOIN assets` fetch at the start of `apply_preset`:
each stored `(asset_id, desired_is_enabled)` pair joined with the asset's
stored relative path and display name. -/
def presetAssetsJoin (cat : List AssetRow) (entries : List (Nat × Bool)) :
    List (Nat × Bool × FsPath × Name) :=
  entries.filterMap (fun e =>
    match cat.find? (fun r => r.id == e.1) with
    | none => none
    | some r => some (e.1, e.2, r.folderName, r.name))

/-- One iteration of the `apply_preset` loop (main.rs 2333-2406): resolve
the current on-disk state; a missing folder is recorded as a per-asset
error; a rename happens only when the current state differs from the
desired one. -/
def applyPresetStep (base : FsPath) (st : FS × List (List Char))
    (x : Nat × Bool × FsPath × Name) : FS × List (List Char) :=
  let (fs, errs) := st
  let (_assetId, desired, R, assetName) := x
  match R.getLast? with
  | none => (fs, errs ++ [chars "Skipping asset: invalid folder name"])
  | some leaf =>
    if leaf = [] then (fs, errs ++ [chars "Skipping asset: invalid folder name"])
    else
      if fs (fullPathIfEnabled base R) then
        if desired then (fs, errs)
        else (renameDir fs (fullPathIfEnabled base R) (fullPathIfDisabled base R), errs)
      else if fs (fullPathIfDisabled base R) then
        if desired then
          (renameDir fs (fullPathIfDisabled base R) (fullPathIfEnabled base R), errs)
        else (fs, errs)
      else
        (fs, errs ++ [chars "Skipping asset " ++ quoted assetName ++
          chars ": Folder not found on disk"])

/-- `apply_preset`: best-effort batch over the preset entries; returns the
final filesystem and the collected per-asset errors (the command returns
`Ok` iff that list is empty). -/
def applyPreset (fs : FS) (base : FsPath) (cat : List AssetRow)
    (entries : List (Nat × Bool)) : FS × List (List Char) :=
  (presetAssetsJoin cat entries).foldl (applyPresetStep base) (fs, [])

/-- C5: snapshotting a preset over assets `{A : enabled, B : disabled}`,
flipping both on disk, then applying the preset restores exactly the
original on-disk state with zero errors; and in general the apply loop
renames an asset only when its resolved current state differs from the
desired state recorded in the preset. -/
theorem preset_round_trip (pname : Name) (existing : List Name) (fs : FS)
    (base Ra Rb : FsPath) (a b ea eb : Nat) (na nb : Name) (la lb : Name)
    (hname : trimSpaces pname ≠ [])
    (hdup : existing.any
      (fun e => lowerName e == lowerName (trimSpaces pname)) = false)
    (hla : Ra.getLast? = some la) (hla0 : la ≠ [])
    (hca : disabledMarker.isPrefixOf la = false)
    (hlb : Rb.getLast? = some lb) (hlb0 : lb ≠ [])
    (hcb : disabledMarker.isPrefixOf lb = false)
    (hab : a ≠ b) (hRne : Ra ≠ Rb)
    (hEa : fs (fullPathIfEnabled base Ra) = true)
    (hDa : fs (fullPathIfDisabled base Ra) = false)
    (hEb : fs (fullPathIfEnabled base Rb) = false)
    (hDb : fs (fullPathIfDisabled base Rb) = true) :
    createPreset pname existing fs base
        [⟨a, ea, Ra, na⟩, ⟨b, eb, Rb, nb⟩] = .ok [(a, true), (b, false)] ∧
    (applyPreset
        (renameDir (renameDir fs (fullPathIfEnabled base Ra)
            (fullPathIfDisabled base Ra))
          (fullPathIfDisabled base Rb) (fullPathIfEnabled base Rb))
        base [⟨a, ea, Ra, na⟩, ⟨b, eb, Rb, nb⟩] [(a, true), (b, false)]).2 = [] ∧
    (∀ p, (applyPreset
        (renameDir (renameDir fs (fullPathIfEnabled base Ra)
            (fullPathIfDisabled base Ra))
          (fullPathIfDisabled base Rb) (fullPathIfEnabled base Rb))
        base [⟨a, ea, Ra, na⟩, ⟨b, eb, Rb, nb⟩] [(a, true), (b, false)]).1 p = fs p) ∧
    (∀ (fs0 : FS) (errs : List (List Char)) (aid : Nat) (desired : Bool)
        (R : FsPath) (nm l : Name), R.getLast? = some l → l ≠ [] →
      ((desired = true ∧ resolveState fs0 base R = .enabled) ∨
       (desired = false ∧ resolveState fs0 base R = .disabled)) →
      applyPresetStep base (fs0, errs) (aid, desired, R, nm) = (fs0, errs)) := by
  set eA := fullPathIfEnabled base Ra with heA
  set dA := fullPathIfDisabled base Ra with hdA
  set eB := fullPathIfEnabled base Rb with heB
  set dB := fullPathIfDisabled base Rb with hdB
  have heAdA : eA ≠ dA := fullPaths_ne hla
  have heBdB : eB ≠ dB := fullPaths_ne hlb
  have heAeB : eA ≠ eB := enabled_ne_enabled hRne
  have heAdB : eA ≠ dB := enabled_ne_disabled_of_clean hla hlb hca
  have heBdA : eB ≠ dA := enabled_ne_disabled_of_clean hlb hla hcb
  have hdAdB : dA ≠ dB := disabled_ne_disabled hla hlb hRne
  have hresA : resolveState fs base Ra = .enabled := by
    unfold resolveState
    rw [← heA, ← hdA, hEa]
    simp
  have hresB : resolveState fs base Rb = .disabled := by
    unfold resolveState
    rw [← heB, ← hdB, hEb, hDb]
    simp
  refine ⟨?_, ?_, ?_, ?_⟩
  · unfold createPreset
    rw [if_neg hname]
    simp only [hdup, Bool.false_eq_true, if_false]
    simp only [List.filterMap_cons, List.filterMap_nil]
    simp only [hla, hlb, if_neg hla0, if_neg hlb0, hresA, hresB]
  · unfold applyPreset presetAssetsJoin
    simp only [List.filterMap_cons, List.filterMap_nil, List.find?_cons]
    have hfa : ((⟨a, ea, Ra, na⟩ : AssetRow).id == a) = true := by simp
    have hfb : ((⟨a, ea, Ra, na⟩ : AssetRow).id == b) = false := by simp [hab]
    have hfb2 : ((⟨b, eb, Rb, nb⟩ : AssetRow).id == b) = true := by simp
    simp only [hfa, hfb, hfb2]
    -- the join is [(a, true, Ra, na), (b, false, Rb, nb)]; evaluate the fold
    set fsF := renameDir (renameDir fs eA dA) dB eB with hfsF
    have hFeA : fsF eA = false := by
      rw [hfsF, renameDir, if_neg heAeB, if_neg heAdB, renameDir,
        if_neg heAdA, if_pos rfl]
    have hFdA : fsF dA = true := by
      rw [hfsF, renameDir, if_neg (Ne.symm heBdA), if_neg hdAdB,
        renameDir, if_pos rfl]
    simp only [List.foldl_cons, List.foldl_nil, applyPresetStep, hla, hlb,
      if_neg hla0, if_neg hlb0]
    rw [← heA, ← hdA, ← heB, ← hdB]
    rw [hFeA]
    simp only [Bool.false_eq_true, if_false]
    rw [hFdA]
    simp only [if_true]
    set fs1 := renameDir fsF dA eA with hfs1
    have h1eB : fs1 eB = true := by
      rw [hfs1, renameDir, if_neg (Ne.symm heAeB), if_neg heBdA, hfsF,
        renameDir, if_pos rfl]
    rw [h1eB]
    simp
  · unfold applyPreset presetAssetsJoin
    simp only [List.filterMap_cons, List.filterMap_nil, List.find?_cons]
    have hfa : ((⟨a, ea, Ra, na⟩ : AssetRow).id == a) = true := by simp
    have hfb : ((⟨a, ea, Ra, na⟩ : AssetRow).id == b) = false := by simp [hab]
    have hfb2 : ((⟨b, eb, Rb, nb⟩ : AssetRow).id == b) = true := by simp
    simp only [hfa, hfb, hfb2]
    set fsF := renameDir (renameDir fs eA dA) dB eB with hfsF
    have hFeA : fsF eA = false := by
      rw [hfsF, renameDir, if_neg heAeB, if_neg heAdB, renameDir,
        if_neg heAdA, if_pos rfl]
    have hFdA : fsF dA = true := by
      rw [hfsF, renameDir, if_neg (Ne.symm heBdA), if_neg hdAdB,
        renameDir, if_pos rfl]
    simp only [List.foldl_cons, List.foldl_nil, applyPresetStep, hla, hlb,
      if_neg hla0, if_neg hlb0]
    rw [← heA, ← hdA, ← heB, ← hdB]
    rw [hFeA]
    simp only [Bool.false_eq_true, if_false]
    rw [hFdA]
    simp only [if_true]
    set fs1 := renameDir fsF dA eA with hfs1
    have h1eB : fs1 eB = true := by
      rw [hfs1, renameDir, if_neg (Ne.symm heAeB), if_neg heBdA, hfsF,
        renameDir, if_pos rfl]
    rw [h1eB]
    simp only [if_true, Bool.true_eq_false, if_false]
    intro p
    rw [renameDir]
    by_cases hpdB : p = dB
    · subst hpdB
      rw [if_pos rfl, hDb]
    · rw [if_neg hpdB]
      by_cases hpeB : p = eB
      · subst hpeB
        rw [if_pos rfl, hEb]
      · rw [if_neg hpeB, hfs1, renameDir]
        by_cases hpeA : p = eA
        · subst hpeA
          rw [if_pos rfl, hEa]
        · rw [if_neg hpeA]
          by_cases hpdA : p = dA
          · subst hpdA
            rw [if_pos rfl, hDa]
          · rw [if_neg hpdA, hfsF, renameDir, if_neg hpeB, if_neg hpdB,
              renameDir, if_neg hpdA, if_neg hpeA]
  · intro fs0 errs aid desired R nm l hlR hlR0 hmatch
    unfold applyPresetStep
    simp only [hlR, if_neg hlR0]
    rcases hmatch with ⟨hdes, hres⟩ | ⟨hdes, hres⟩
    · have hfe : fs0 (fullPathIfEnabled base R) = true :=
        resolveState_eq_enabled.mp hres
      rw [hfe, hdes]
      simp
    · obtain ⟨hfe, hfd⟩ := resolveState_eq_disabled.mp hres
      rw [hfe, hfd, hdes]
      simp

/-- Witness for C5 at a concrete two-asset catalog. -/
theorem preset_round_trip_witness :
    createPreset ['p'] []
        (fun p => p == [['a']] || p == ["DISABLED_b".toList]) []
        [⟨1, 7, [['a']], ['a']⟩, ⟨2, 8, [['b']], ['b']⟩] =
      .ok [(1, true), (2, false)] :=
  (preset_round_trip ['p'] []
    (fun p => p == [['a']] || p == ["DISABLED_b".toList]) [] [['a']] [['b']]
    1 2 7 8 ['a'] ['b'] ['a'] ['b']
    (by decide) (by decide) (by decide) (by decide) (by decide) (by decide)
    (by decide) (by decide) (by decide) (by decide) (by decide) (by decide)
    (by decide) (by decide)).1

/-! ## Folder prober (`find_preview_image`) -/

/-- The fixed candidate array `common_names` of `find_preview_image`. -/
def commonPreviewNames : List Name :=
  ["preview.png".toList, "preview.jpg".toList, "icon.png".toList,
   "icon.jpg".toList, "thumbnail.png".toList, "thumbnail.jpg".toList]

/-- `find_preview_image` (main.rs 475-489): iterate the directory entries
(depth 1, files only, in directory-iteration order — the input list) and
return the first entry whose lowercased filename is contained in the fixed
candidate array.  A non-directory input yields `None` before iteration. -/
def findPreviewImage (files : List Name) : Option Name :=
  files.find? (fun f => commonPreviewNames.contains (lowerName f))

/-- `find?` returns the first element satisfying the predicate. -/
theorem find?_eq_some_iff_first {α : Type} {p : α → Bool} {a : α} :
    ∀ {l : List α}, l.find? p = some a ↔
      ∃ pre suf, l = pre ++ a :: suf ∧ p a = true ∧ ∀ g ∈ pre, p g = false := by
  intro l
  induction l with
  | nil =>
    constructor
    · intro h; simp at h
    · rintro ⟨pre, suf, heq, -, -⟩
      exact absurd heq (by simp)
  | cons x t ih =>
    cases hx : p x with
    | true =>
      rw [List.find?_cons_of_pos _ hx]
      constructor
      · intro h
        injection h with h
        subst h
        exact ⟨[], t, rfl, hx, by simp⟩
      · rintro ⟨pre, suf, heq, hpa, hpre⟩
        cases pre with
        | nil =>
          simp only [List.nil_append, List.cons.injEq] at heq
          rw [heq.1]
        | cons y ys =>
          simp only [List.cons_append, List.cons.injEq] at heq
          obtain ⟨hxy, -⟩ := heq
          have hy := hpre y (by simp)
          rw [← hxy, hx] at hy
          exact absurd hy (by simp)
    | false =>
      rw [List.find?_cons_of_neg _ (by simp [hx])]
      rw [ih]
      constructor
      · rintro ⟨pre, suf, heq, hpa, hpre⟩
        refine ⟨x :: pre, suf, by rw [heq, List.cons_append], hpa, ?_⟩
        intro g hg
        rcases List.mem_cons.mp hg with hg | hg
        · rw [hg]; exact hx
        · exact hpre g hg
      · rintro ⟨pre, suf, heq, hpa, hpre⟩
        cases pre with
        | nil =>
          simp only [List.nil_append, List.cons.injEq] at heq
          rw [heq.1, hpa] at hx
          exact absurd hx (by simp)
        | cons y ys =>
          simp only [List.cons_append, List.cons.injEq] at heq
          obtain ⟨-, hteq⟩ := heq
          exact ⟨ys, suf, hteq, hpa, fun g hg => hpre g (by simp [hg])⟩

/-- C6 counterexample: with both `icon.png` and `preview.png` present,
`find_preview_image` returns whichever comes first in directory-iteration
order — here `icon.png` — not the candidate-list-priority `preview.png`
the claim predicts. -/
theorem find_preview_image_dir_order_cex :
    findPreviewImage ["icon.png".toList, "preview.png".toList] =
      some ("icon.png".toList) ∧
    findPreviewImage ["icon.png".toList, "preview.png".toList] ≠
      some ("preview.png".toList) := by
  constructor
  · decide
  · decide

/-- C6 amended: `find_preview_image` returns the first filename in
directory-iteration order whose lowercased name case-insensitively matches
the fixed candidate set; ties between candidates are broken by directory
order, not by candidate-list order; `none` is returned iff no entry
matches. -/
theorem find_preview_image_spec (files : List Name) (f : Name) :
    (findPreviewImage files = some f ↔
      ∃ pre suf, files = pre ++ f :: suf ∧
        commonPreviewNames.contains (lowerName f) = true ∧
        ∀ g ∈ pre, commonPreviewNames.contains (lowerName g) = false) ∧
    (findPreviewImage files = none ↔
      ∀ g ∈ files, commonPreviewNames.contains (lowerName g) = false) := by
  constructor
  · exact find?_eq_some_iff_first
  · rw [findPreviewImage, List.find?_eq_none]
    constructor
    · intro h g hg
      have := h g hg
      simpa using this
    · intro h g hg
      rw [h g hg]
      simp

/-- Witness for C6 (amended): the first matching directory entry wins. -/
theorem find_preview_image_spec_witness :
    findPreviewImage ["icon.png".toList, "preview.png".toList] =
      some ("icon.png".toList) :=
  (find_preview_image_spec ["icon.png".toList, "preview.png".toList]
      ("icon.png".toList)).1.mpr
    ⟨[], ["preview.png".toList], rfl, by decide, by simp⟩

/-! ## Mod deducer (`deduce_mod_info_v2`): classification pipeline.

Only the entity-slug classification is embedded (ancestry walk, INI hints,
fuzzy category fallback); the display-name regex cleanup and preview-image
field are not referenced by any claim. -/

/-- The four lookup tables built by `fetch_deduction_maps`.  Rust iterates
`HashMap`s; here each map is an association list in a fixed iteration
order (`get` = `List.lookup`, `contains_key` = `isSome` of it). -/
structure DeductionMaps where
  categorySlugToId : List (Name × Nat)
  entitySlugToId : List (Name × Nat)
  lowercaseCategoryNameToSlug : List (Name × Name)
  lowercaseEntityNameToSlug : List (Name × Name)
deriving Repr

/-- `Path::parent`: `None` for the empty path, otherwise the path without
its last component. -/
def parentPath (p : FsPath) : Option FsPath :=
  match p with
  | [] => none
  | _ => some p.dropLast

/-- The per-ancestor checks of the walk (main.rs 286-311): the entity
candidate is only written while still unset (slug exact match first, then
case-insensitive display-name match); the category candidate is
overwritten unconditionally by a slug match, while a name match only lands
if no candidate is set or the set candidate is not a known slug. -/
def checkLevel (maps : DeductionMaps) (folderName : Name)
    (acc : Option Name × Option Name) : Option Name × Option Name :=
  let (foundE, foundC) := acc
  let lower := lowerName folderName
  let fE :=
    if foundE.isNone then
      if (maps.entitySlugToId.lookup folderName).isSome then some folderName
      else
        match maps.lowercaseEntityNameToSlug.lookup lower with
        | some slug => some slug
        | none => foundE
    else foundE
  let catSlugMatch := (maps.categorySlugToId.lookup folderName).isSome
  let fC :=
    if catSlugMatch then some folderName
    else
      match maps.lowercaseCategoryNameToSlug.lookup lower with
      | some slug =>
        match foundC with
        | none => some slug
        | some c =>
          if (maps.categorySlugToId.lookup c).isSome then foundC else some slug
      | none => foundC
  (fE, fC)

/-- The `while let Some(path) = current_path` ancestry loop (main.rs
281-313): stops at the base root or at its immediate child boundary. -/
def walkAncestors (base : FsPath) (maps : DeductionMaps) (path : FsPath)
    (acc : Option Name × Option Name) : Option Name × Option Name :=
  if path = base ∨ parentPath path = some base then acc
  else
    let acc2 :=
      match path.getLast? with
      | none => acc
      | some folderName => checkLevel maps folderName acc
    match hp : parentPath path with
    | none => acc2
    | some pp => walkAncestors base maps pp acc2
termination_by path.length
decreasing_by
  cases hpath : path with
  | nil => rw [hpath] at hp; simp [parentPath] at hp
  | cons x xs =>
    rw [hpath] at hp
    simp only [parentPath, Option.some.injEq] at hp
    rw [← hp]
    simp [List.length_dropLast]

/-- Entry point of the walk: start from the candidate folder's parent. -/
def ancestryWalk (modFolderPath basePath : FsPath) (maps : DeductionMaps) :
    Option Name × Option Name :=
  match parentPath modFolderPath with
  | none => (none, none)
  | some p => walkAncestors basePath maps p (none, none)

/-- A parsed INI section: name and key-value properties
(`ini.section(Some(name))` / `section.get(key)` are both first-match
lookups). -/
structure IniSection where
  sname : Name
  props : List (Name × Name)
deriving DecidableEq, Repr

abbrev IniFile := List IniSection

def sectionGet (ini : IniFile) (sec : Name) : Option (List (Name × Name)) :=
  (ini.find? (fun s => s.sname == sec)).map (fun s => s.props)

def propGet (props : List (Name × Name)) (key : Name) : Option Name :=
  (props.find? (fun kv => kv.1 == key)).map (fun kv => kv.2)

/-- The hints collected from the INI (main.rs 330-338). -/
structure IniHints where
  modName : Option Name
  author : Option Name
  description : Option Name
  target : Option Name
  typ : Option Name
deriving Repr

def iniSectionNames : List Name :=
  ["Mod".toList, "Settings".toList, "Info".toList, "General".toList]

/-- Scan the sections `Mod`, `Settings`, `Info`, `General` in order; within
each, `Name`/`ModName` set the display name, `Author`/`Description` their
fields, `Target`/`Entity`/`Character` the entity hint and
`Type`/`Category` the type hint; later sections overwrite earlier ones. -/
def collectIniHints (ini : IniFile) : IniHints :=
  iniSectionNames.foldl
    (fun h sec =>
      match sectionGet ini sec with
      | none => h
      | some props =>
        let nameV := (propGet props "Name".toList).orElse
          (fun _ => propGet props "ModName".toList)
        let authorV := propGet props "Author".toList
        let descV := propGet props "Description".toList
        let targetV := ((propGet props "Target".toList).orElse
          (fun _ => propGet props "Entity".toList)).orElse
          (fun _ => propGet props "Character".toList)
        let typV := (propGet props "Type".toList).orElse
          (fun _ => propGet props "Category".toList)
        { modName := match nameV with
            | some v => some (trimSpaces v)
            | none => h.modName,
          author := match authorV with
            | some v => some (trimSpaces v)
            | none => h.author,
          description := match descV with
            | some v => some (trimSpaces v)
            | none => h.description,
          target := match targetV with
            | some v => some (trimSpaces v)
            | none => h.target,
          typ := match typV with
            | some v => some (trimSpaces v)
            | none => h.typ })
    ⟨none, none, none, none, none⟩

/-- Hints of an optional INI file (absent or unparseable file: no hints). -/
def iniHintsOf (ini : Option IniFile) : IniHints :=
  match ini with
  | none => ⟨none, none, none, none, none⟩
  | some f => collectIniHints f

/-- Resolve the INI entity hint: exact slug match first, then
case-insensitive display-name match (main.rs 344-353). -/
def resolveEntityHint (maps : DeductionMaps) (hint : Option Name) : Option Name :=
  match hint with
  | none => none
  | some target =>
    if (maps.entitySlugToId.lookup target).isSome then some target
    else
      match maps.lowercaseEntityNameToSlug.lookup (lowerName target) with
      | some slug => some slug
      | none => none

/-- Resolve the INI type hint against the category maps (main.rs 356-365). -/
def resolveCategoryHint (maps : DeductionMaps) (hint : Option Name) : Option Name :=
  match hint with
  | none => none
  | some typ =>
    if (maps.categorySlugToId.lookup typ).isSome then some typ
    else
      match maps.lowercaseCategoryNameToSlug.lookup (lowerName typ) with
      | some slug => some slug
      | none => none

/-- The fuzzy fallback (main.rs 384-401): bidirectional prefix containment
of the lowercased top-level folder name against category slugs first, then
lowercased category names; first match in map-iteration order wins. -/
def fuzzyCategoryMatch (maps : DeductionMaps) (topFolderName : Name) : Option Name :=
  let lower := lowerName topFolderName
  match maps.categorySlugToId.find?
      (fun kv => lower.isPrefixOf kv.1 || kv.1.isPrefixOf lower) with
  | some kv => some kv.1
  | none =>
    match maps.lowercaseCategoryNameToSlug.find?
        (fun kv => lower.isPrefixOf kv.1 || kv.1.isPrefixOf lower) with
    | some kv => some kv.2
    | none => none

def otherSuffix : Name := "-other".toList

/-- The hardcoded ultimate fallback (`fallback_category = "characters"`). -/
def fallbackCategory : Name := "characters".toList

/-- Priority 3/4 of the final assignment (main.rs 374-422): fuzzy-match the
first component of the candidate path relative to the base root; on
failure (including a failed `strip_prefix` or an empty relative path) fall
back to the hardcoded default category. -/
def fuzzyFallbackSlug (modFolderPath basePath : FsPath)
    (maps : DeductionMaps) : Name :=
  if basePath.isPrefixOf modFolderPath then
    match (modFolderPath.drop basePath.length).head? with
    | some top =>
      match fuzzyCategoryMatch maps top with
      | some slug => slug ++ otherSuffix
      | none => fallbackCategory ++ otherSuffix
    | none => fallbackCategory ++ otherSuffix
  else fallbackCategory ++ otherSuffix

/-- The entity-slug classification of `deduce_mod_info_v2` (main.rs
255-434): ancestry walk, then INI hints for whichever of entity/category
the walk left unresolved, then the final assignment with fuzzy fallback.
Returns `none` iff the folder has no file name. -/
def deduceEntitySlug (modFolderPath basePath : FsPath) (maps : DeductionMaps)
    (ini : Option IniFile) : Option Name :=
  match modFolderPath.getLast? with
  | none => none
  | some _ =>
    let walked := ancestryWalk modFolderPath basePath maps
    let hints := iniHintsOf ini
    let foundE :=
      match walked.1 with
      | some e => some e
      | none => resolveEntityHint maps hints.target
    let foundC :=
      match walked.2 with
      | some c => some c
      | none => resolveCategoryHint maps hints.typ
    match foundE with
    | some e => some e
    | none =>
      match foundC with
      | some c => some (c ++ otherSuffix)
      | none => some (fuzzyFallbackSlug modFolderPath basePath maps)

/-- Unfolding: the walk stops at the base root or its immediate child. -/
theorem walkAncestors_stop (base : FsPath) (maps : DeductionMaps)
    (path : FsPath) (acc : Option Name × Option Name)
    (h : path = base ∨ parentPath path = some base) :
    walkAncestors base maps path acc = acc := by
  rw [walkAncestors, if_pos h]

/-- Unfolding: one non-final level of the walk checks the level's name and
recurses on the parent. -/
theorem walkAncestors_step (base : FsPath) (maps : DeductionMaps)
    (path : FsPath) (acc : Option Name × Option Name)
    (hstop : ¬(path = base ∨ parentPath path = some base))
    (pp : FsPath) (hpp : parentPath path = some pp)
    (folderName : Name) (hlast : path.getLast? = some folderName) :
    walkAncestors base maps path acc =
      walkAncestors base maps pp (checkLevel maps folderName acc) := by
  rw [walkAncestors, if_neg hstop]
  simp only [hlast]
  split
  · next hnone => rw [hnone] at hpp; cases hpp
  · next pp' hsome =>
    rw [hsome] at hpp
    injection hpp with hpp
    rw [hpp]

theorem checkLevel_fst_some (maps : DeductionMaps) (n : Name)
    (fC : Option Name) (x : Name) :
    (checkLevel maps n (some x, fC)).1 = some x := by
  simp [checkLevel]

/-- C7: when neither the ancestry walk nor the INI hints resolve an entity
or a category, the deduced entity slug is produced by the fuzzy fallback:
the first path component of the candidate relative to the base root is
matched by bidirectional case-insensitive prefix containment against known
category slugs and then names (first match wins, slugs before names) and
the matched category's `-other` entity is assigned; with no fuzzy match
the hardcoded default category's `Other` entity is assigned. -/
theorem deduction_fallback_chain (modFolderPath basePath : FsPath)
    (maps : DeductionMaps) (ini : Option IniFile) (leaf : Name)
    (hleaf : modFolderPath.getLast? = some leaf)
    (hwalk : ancestryWalk modFolderPath basePath maps = (none, none))
    (hte : resolveEntityHint maps (iniHintsOf ini).target = none)
    (htc : resolveCategoryHint maps (iniHintsOf ini).typ = none) :
    deduceEntitySlug modFolderPath basePath maps ini =
      some (fuzzyFallbackSlug modFolderPath basePath maps) := by
  unfold deduceEntitySlug
  rw [hleaf]
  simp only [hwalk, hte, htc]

/-- Witness for C7: `BaseMods/Characters/RandomName123` with an INI carrying
no recognized keys, where `Characters` fuzzy-matches the `characters`
category slug, is classified into `characters-other`. -/
theorem deduction_fallback_chain_witness :
    deduceEntitySlug
      ["BaseMods".toList, "Characters".toList, "RandomName123".toList]
      ["BaseMods".toList]
      ⟨[("characters".toList, 1)], [("characters-other".toList, 10)],
        [("characters".toList, "characters".toList)], []⟩
      (some [⟨"Mod".toList, [("SomeKey".toList, "SomeValue".toList)]⟩]) =
      some ("characters-other".toList) := by
  rw [deduction_fallback_chain
    ["BaseMods".toList, "Characters".toList, "RandomName123".toList]
    ["BaseMods".toList]
    ⟨[("characters".toList, 1)], [("characters-other".toList, 10)],
      [("characters".toList, "characters".toList)], []⟩
    (some [⟨"Mod".toList, [("SomeKey".toList, "SomeValue".toList)]⟩])
    ("RandomName123".toList) (by decide)
    (by
      show walkAncestors ["BaseMods".toList]
        ⟨[("characters".toList, 1)], [("characters-other".toList, 10)],
          [("characters".toList, "characters".toList)], []⟩
        ["BaseMods".toList, "Characters".toList] (none, none) = (none, none)
      exact walkAncestors_stop _ _ _ _ (Or.inr (by decide)))
    (by decide) (by decide)]
  decide

/-- C8 counterexample: with the category name `Characters` matching at the
nearest checked ancestor and the category slug `weapons` matching one level
higher, the walk ends with `weapons` — a later (higher) slug match
overwrites the nearer match, contradicting the claimed first-found rule
(which predicts `characters`). -/
theorem ancestry_walk_overwrite_cex :
    (ancestryWalk
        ["base".toList, "x".toList, "weapons".toList, "Characters".toList,
          "mod".toList]
        ["base".toList]
        ⟨[("weapons".toList, 1), ("characters".toList, 2)], [],
          [("characters".toList, "characters".toList)], []⟩).2 =
      some ("weapons".toList) ∧
    (ancestryWalk
        ["base".toList, "x".toList, "weapons".toList, "Characters".toList,
          "mod".toList]
        ["base".toList]
        ⟨[("weapons".toList, 1), ("characters".toList, 2)], [],
          [("characters".toList, "characters".toList)], []⟩).2 ≠
      some ("characters".toList) := by
  have e1 : ancestryWalk
      ["base".toList, "x".toList, "weapons".toList, "Characters".toList,
        "mod".toList]
      ["base".toList]
      ⟨[("weapons".toList, 1), ("characters".toList, 2)], [],
        [("characters".toList, "characters".toList)], []⟩ =
      checkLevel
        ⟨[("weapons".toList, 1), ("characters".toList, 2)], [],
          [("characters".toList, "characters".toList)], []⟩
        ("weapons".toList)
        (checkLevel
          ⟨[("weapons".toList, 1), ("characters".toList, 2)], [],
            [("characters".toList, "characters".toList)], []⟩
          ("Characters".toList) (none, none)) := by
    show walkAncestors ["base".toList]
        ⟨[("weapons".toList, 1), ("characters".toList, 2)], [],
          [("characters".toList, "characters".toList)], []⟩
        ["base".toList, "x".toList, "weapons".toList, "Characters".toList]
        (none, none) = _
    rw [walkAncestors_step _ _ _ _ (by decide)
      ["base".toList, "x".toList, "weapons".toList] (by decide)
      ("Characters".toList) (by decide)]
    rw [walkAncestors_step _ _ _ _ (by decide)
      ["base".toList, "x".toList] (by decide)
      ("weapons".toList) (by decide)]
    exact walkAncestors_stop _ _ _ _ (Or.inr (by decide))
  constructor
  · rw [e1]; decide
  · rw [e1]; decide

theorem getLast?_cons_isSome :
    ∀ (a : Name) (as : List Name), ∃ w, (a :: as).getLast? = some w
  | a, [] => ⟨a, rfl⟩
  | a, b :: t => by
    obtain ⟨w, hw⟩ := getLast?_cons_isSome b t
    exact ⟨w, by rw [List.getLast?_cons_cons]; exact hw⟩

/-- C8 amended: the entity candidate does follow the first-match rule — once
set during the walk it is never overwritten by a higher ancestor.  The
category candidate does not: a slug match at any level overwrites the
current candidate unconditionally (so the highest slug-matching checked
ancestor wins), while a name match lands only when no candidate is set or
the set candidate is not itself a known category slug. -/
theorem ancestry_walk_first_match :
    (∀ (nn : Nat) (path : FsPath), path.length ≤ nn →
      ∀ (base : FsPath) (maps : DeductionMaps) (fC : Option Name) (x : Name),
        (walkAncestors base maps path (some x, fC)).1 = some x) ∧
    (∀ (maps : DeductionMaps) (n : Name) (acc : Option Name × Option Name),
      (maps.categorySlugToId.lookup n).isSome = true →
      (checkLevel maps n acc).2 = some n) ∧
    (∀ (maps : DeductionMaps) (n : Name) (fE : Option Name) (c : Name),
      (maps.categorySlugToId.lookup n).isSome = false →
      (maps.categorySlugToId.lookup c).isSome = true →
      (checkLevel maps n (fE, some c)).2 = some c) := by
  refine ⟨?_, ?_, ?_⟩
  · intro nn
    induction nn with
    | zero =>
      intro path hlen base maps fC x
      have hnil : path = [] := List.length_eq_zero.mp (Nat.le_zero.mp hlen)
      subst hnil
      rw [walkAncestors]
      split
      · rfl
      · rfl
    | succ nn ih =>
      intro path hlen base maps fC x
      by_cases hstop : path = base ∨ parentPath path = some base
      · rw [walkAncestors_stop _ _ _ _ hstop]
      · cases path with
        | nil =>
          rw [walkAncestors]
          split
          · rfl
          · rfl
        | cons a as =>
          obtain ⟨w, hw⟩ := getLast?_cons_isSome a as
          have hpp : parentPath (a :: as) = some ((a :: as).dropLast) := rfl
          rw [walkAncestors_step _ _ _ _ hstop _ hpp _ hw]
          have hplen : ((a :: as).dropLast).length ≤ nn := by
            have hld := List.length_dropLast (a :: as)
            simp only [List.length_cons] at hlen hld
            omega
          have hck : checkLevel maps w (some x, fC) =
              (some x, (checkLevel maps w (some x, fC)).2) := by
            have h1 := checkLevel_fst_some maps w fC x
            exact Prod.ext h1 rfl
          rw [hck]
          exact ih ((a :: as).dropLast) hplen base maps
            (checkLevel maps w (some x, fC)).2 x
  · intro maps n acc h
    obtain ⟨fE, fC⟩ := acc
    simp [checkLevel, h]
  · intro maps n fE c h1 h2
    cases hnm : maps.lowercaseCategoryNameToSlug.lookup (lowerName n) with
    | none => simp [checkLevel, h1, hnm]
    | some slug => simp [checkLevel, h1, h2, hnm]

/-- Witness for C8 (amended): a slug match overwrites the category
candidate at a concrete level, and a preset entity candidate survives a
concrete walk. -/
theorem ancestry_walk_first_match_witness :
    (checkLevel ⟨[(['w'], 1)], [], [], []⟩ ['w'] (none, some ['c'])).2 =
      some ['w'] :=
  ancestry_walk_first_match.2.1 ⟨[(['w'], 1)], [], [], []⟩ ['w']
    (none, some ['c']) (by decide)

/-! ## Relocation (`update_asset_info`) and deletion (`delete_asset`) -/

/-- The columns of an `entities` row used here. -/
structure EntityRow where
  id : Nat
  categoryId : Nat
  name : Name
  slug : Name
deriving DecidableEq, Repr

/-- The columns of a `categories` row used here. -/
structure CategoryRow where
  id : Nat
  name : Name
  slug : Name
deriving DecidableEq, Repr

/-- The result of `get_asset_location_info` (main.rs 436-458): the asset row
joined with its entity and category. -/
structure AssetLocationInfo where
  id : Nat
  cleanRelativePath : FsPath
  entityId : Nat
  categorySlug : Name
  entitySlug : Name
deriving DecidableEq, Repr

/-- `get_asset_location_info`: the
`assets JOIN entities JOIN categories WHERE a.id = ?` query; a missing join
partner yields no row (`QueryReturnedNoRows` → `NotFound`). -/
def getAssetLocationInfo (cat : List AssetRow) (entities : List EntityRow)
    (categories : List CategoryRow) (assetId : Nat) : Option AssetLocationInfo :=
  match cat.find? (fun r => r.id == assetId) with
  | none => none
  | some r =>
    match entities.find? (fun e => e.id == r.entityId) with
    | none => none
    | some e =>
      match categories.find? (fun c => c.id == e.categoryId) with
      | none => none
      | some c => some ⟨r.id, r.folderName, r.entityId, c.slug, e.slug⟩

/-- The error message of the relocation source check (main.rs 1447-1453). -/
def relocateNotFoundMsg (assetId : Nat) (dbPath ePath dPath : List Char) :
    List Char :=
  chars "Cannot relocate mod " ++ quoted ((Nat.repr assetId).toList) ++
  chars ": Source folder not found at expected locations derived from DB path " ++
  quoted dbPath ++ chars " (Checked " ++ ePath ++ chars " and " ++ dPath ++
  chars ")."

/-- The concluding move of a relocation (main.rs 1458-1500): the new
relative path is built from the *clean* base name, the destination keeps
the on-disk `DISABLED_` prefix when the source had one, an existing
destination is refused, then the folder is renamed. -/
def relocateMove (fs : FS) (base : FsPath) (tcSlug targetSlug : Name)
    (teId : Nat) (leaf : Name) (src : FsPath) :
    Except (List Char) (FS × Nat × FsPath) :=
  let modBaseName := trimStartMatches disabledMarker leaf
  let newRel := [tcSlug, targetSlug, modBaseName]
  let destLeaf :=
    if disabledMarker.isPrefixOf (src.getLast?.getD []) then
      disabledFileName leaf
    else modBaseName
  let dest := base ++ [tcSlug, targetSlug, destLeaf]
  if fs dest then
    .error (chars "Cannot relocate: Target path " ++
      quoted (renderPath dest) ++ chars " already exists.")
  else .ok (renameDir fs src dest, teId, newRel)

/-- Step 3 of `update_asset_info` (main.rs 1405-1502): look up the new
target entity and category, locate the source folder in enabled or
disabled form (error naming both checked paths when neither exists), then
perform the move. -/
def relocateStep (fs : FS) (base : FsPath) (entities : List EntityRow)
    (categories : List CategoryRow) (cur : AssetLocationInfo)
    (targetSlug : Name) : Except (List Char) (FS × Nat × FsPath) :=
  match entities.find? (fun e => e.slug == targetSlug) with
  | none => .error (chars "New target entity " ++ quoted targetSlug ++
      chars " not found.")
  | some te =>
    match categories.find? (fun c => c.id == te.categoryId) with
    | none => .error (chars "New target entity " ++ quoted targetSlug ++
        chars " not found.")
    | some tc =>
      match cur.cleanRelativePath.getLast? with
      | none => .error (chars "Could not extract filename from current DB path")
      | some leaf =>
        if leaf = [] then .error (chars "Current filename is empty")
        else
          if fs (fullPathIfEnabled base cur.cleanRelativePath) then
            relocateMove fs base tc.slug targetSlug te.id leaf
              (fullPathIfEnabled base cur.cleanRelativePath)
          else if fs (fullPathIfDisabled base cur.cleanRelativePath) then
            relocateMove fs base tc.slug targetSlug te.id leaf
              (fullPathIfDisabled base cur.cleanRelativePath)
          else
            .error (relocateNotFoundMsg cur.id
              (renderPath cur.cleanRelativePath)
              (renderPath (fullPathIfEnabled base cur.cleanRelativePath))
              (renderPath (fullPathIfDisabled base cur.cleanRelativePath)))

/-- Step 4's sanity check and step 5's catalog update of
`update_asset_info` (main.rs 1505-1599): the final folder must exist in
enabled or disabled form at the (possibly new) location, then the asset
row is updated with the final entity id and stored path. -/
def updateFinish (fs2 : FS) (base : FsPath) (cat : List AssetRow)
    (assetId : Nat) (newName : Name) (finalEid : Nat) (finalRel : FsPath) :
    Except (List Char) (FS × List AssetRow) :=
  match (base ++ finalRel).getLast? with
  | none => .error (chars "Could not extract filename from final path")
  | some finalLeaf =>
    let finalClean := trimStartMatches disabledMarker finalLeaf
    let finalDisabled := disabledMarker ++ finalClean
    let finalParent := (base ++ finalRel).dropLast
    if fs2 (finalParent ++ [finalClean]) ||
        fs2 (finalParent ++ [finalDisabled]) then
      .ok (fs2, cat.map (fun r =>
        if r.id == assetId then
          { r with name := newName, entityId := finalEid,
                   folderName := finalRel }
        else r))
    else .error (chars "Mod folder not found at final destination " ++
      quoted (renderPath finalParent) ++ chars " after update/move.")

/-- `update_asset_info` (main.rs 1376-1600) reduced to its path and catalog
effects: fetch the current location info, relocate when a different target
entity slug is requested, sanity-check that the final folder exists, then
update the asset row (name, entity id, stored path).  The image-copy side
effects touch no claim-relevant state and are not modelled. -/
def updateAssetInfo (fs : FS) (base : FsPath) (cat : List AssetRow)
    (entities : List EntityRow) (categories : List CategoryRow)
    (assetId : Nat) (newName : Name) (newTargetEntitySlug : Option Name) :
    Except (List Char) (FS × List AssetRow) :=
  match getAssetLocationInfo cat entities categories assetId with
  | none => .error (chars "Failed to get current asset info")
  | some cur =>
    -- needs_relocation: a target slug is given and differs from the current one
    match newTargetEntitySlug with
    | none => updateFinish fs base cat assetId newName cur.entityId
        cur.cleanRelativePath
    | some s =>
      if s != cur.entitySlug then
        match relocateStep fs base entities categories cur s with
        | .error m => .error m
        | .ok (fs2, finalEid, finalRel) =>
          updateFinish fs2 base cat assetId newName finalEid finalRel
      else updateFinish fs base cat assetId newName cur.entityId
          cur.cleanRelativePath

/-- `delete_asset` (main.rs 1602-1667): fetch location info, delete the
folder in whichever form exists — when neither exists only a warning is
logged and the flow proceeds — then delete the catalog row. -/
def deleteAsset (fs : FS) (base : FsPath) (cat : List AssetRow)
    (entities : List EntityRow) (categories : List CategoryRow)
    (assetId : Nat) : Except (List Char) (FS × List AssetRow) :=
  match getAssetLocationInfo cat entities categories assetId with
  | none => .error (chars "Failed to get asset info for deletion")
  | some info =>
    match info.cleanRelativePath.getLast? with
    | none => .error (chars "Could not extract filename from DB path")
    | some _ =>
      let e := fullPathIfEnabled base info.cleanRelativePath
      let d := fullPathIfDisabled base info.cleanRelativePath
      let fs2 :=
        if fs e then removeDirAll fs e
        else if fs d then removeDirAll fs d
        else fs
      .ok (fs2, cat.filter (fun r => !(r.id == assetId)))

theorem toggleNotFoundMsg_contains (an dbp ep dp : List Char) :
    (∃ u v, toggleNotFoundMsg an dbp ep dp = u ++ ep ++ v) ∧
    (∃ u v, toggleNotFoundMsg an dbp ep dp = u ++ dp ++ v) := by
  constructor
  · exact ⟨chars "Cannot toggle mod " ++ quoted an ++
      chars ": Folder not found at expected locations derived from DB path " ++
      quoted dbp ++ chars " (Checked ",
      chars " and " ++ dp ++ chars "). Did the folder get moved or deleted?",
      by simp [toggleNotFoundMsg, List.append_assoc]⟩
  · exact ⟨chars "Cannot toggle mod " ++ quoted an ++
      chars ": Folder not found at expected locations derived from DB path " ++
      quoted dbp ++ chars " (Checked " ++ ep ++ chars " and ",
      chars "). Did the folder get moved or deleted?",
      by simp [toggleNotFoundMsg, List.append_assoc]⟩

theorem relocateNotFoundMsg_contains (i : Nat) (dbp ep dp : List Char) :
    (∃ u v, relocateNotFoundMsg i dbp ep dp = u ++ ep ++ v) ∧
    (∃ u v, relocateNotFoundMsg i dbp ep dp = u ++ dp ++ v) := by
  constructor
  · exact ⟨chars "Cannot relocate mod " ++ quoted ((Nat.repr i).toList) ++
      chars ": Source folder not found at expected locations derived from DB path " ++
      quoted dbp ++ chars " (Checked ",
      chars " and " ++ dp ++ chars ").",
      by simp [relocateNotFoundMsg, List.append_assoc]⟩
  · exact ⟨chars "Cannot relocate mod " ++ quoted ((Nat.repr i).toList) ++
      chars ": Source folder not found at expected locations derived from DB path " ++
      quoted dbp ++ chars " (Checked " ++ ep ++ chars " and ",
      chars ").",
      by simp [relocateNotFoundMsg, List.append_assoc]⟩

/-- C9 counterexample: `delete_asset` on an asset whose folder exists in
neither form does *not* fail — it logs a warning, performs no filesystem
change and still deletes the catalog row, returning `Ok`. -/
theorem delete_asset_orphan_proceeds_cex :
    deleteAsset (fun _ => false) [] [⟨1, 1, [['m']], ['m']⟩]
      [⟨1, 1, ['e'], ['e']⟩] [⟨1, ['c'], ['c']⟩] 1 =
      .ok ((fun _ => false), []) := by
  rfl

/-- C9 amended: when the asset's backing folder exists in neither form,
`toggle_asset_enabled` and the relocation path of `update_asset_info` fail
the whole operation with an error message that includes both checked
candidate paths and leave the catalog untouched (the error return carries
no catalog write); `delete_asset`, however, proceeds: it returns `Ok`,
leaves the filesystem unchanged and removes the catalog row. -/
theorem single_target_orphan_behavior (fs : FS) (base : FsPath)
    (cat : List AssetRow) (entities : List EntityRow)
    (categories : List CategoryRow) (assetId : Nat) (uiName newName : Name)
    (row : AssetRow) (ent : EntityRow) (catRow : CategoryRow)
    (targetSlug : Name) (leaf : Name)
    (hrow : cat.find? (fun r => r.id == assetId) = some row)
    (hent : entities.find? (fun e => e.id == row.entityId) = some ent)
    (hcat : categories.find? (fun c => c.id == ent.categoryId) = some catRow)
    (hslug : targetSlug ≠ ent.slug)
    (hleaf : row.folderName.getLast? = some leaf) (hl0 : leaf ≠ [])
    (hfe : fs (fullPathIfEnabled base row.folderName) = false)
    (hfd : fs (fullPathIfDisabled base row.folderName) = false) :
    (toggleAssetEnabled fs base cat assetId uiName =
      .error (toggleNotFoundMsg uiName (renderPath row.folderName)
        (renderPath (fullPathIfEnabled base row.folderName))
        (renderPath (fullPathIfDisabled base row.folderName))) ∧
     (∃ u v, toggleNotFoundMsg uiName (renderPath row.folderName)
        (renderPath (fullPathIfEnabled base row.folderName))
        (renderPath (fullPathIfDisabled base row.folderName)) =
        u ++ renderPath (fullPathIfEnabled base row.folderName) ++ v) ∧
     (∃ u v, toggleNotFoundMsg uiName (renderPath row.folderName)
        (renderPath (fullPathIfEnabled base row.folderName))
        (renderPath (fullPathIfDisabled base row.folderName)) =
        u ++ renderPath (fullPathIfDisabled base row.folderName) ++ v)) ∧
    ((∀ te ∈ entities.find? (fun e => e.slug == targetSlug),
      updateAssetInfo fs base cat entities categories assetId newName
          (some targetSlug) =
        .error (relocateNotFoundMsg row.id (renderPath row.folderName)
          (renderPath (fullPathIfEnabled base row.folderName))
          (renderPath (fullPathIfDisabled base row.folderName))) ∨
      (categories.find? (fun c => c.id == te.categoryId) = none)) ∧
     (∃ u v, relocateNotFoundMsg row.id (renderPath row.folderName)
        (renderPath (fullPathIfEnabled base row.folderName))
        (renderPath (fullPathIfDisabled base row.folderName)) =
        u ++ renderPath (fullPathIfEnabled base row.folderName) ++ v) ∧
     (∃ u v, relocateNotFoundMsg row.id (renderPath row.folderName)
        (renderPath (fullPathIfEnabled base row.folderName))
        (renderPath (fullPathIfDisabled base row.folderName)) =
        u ++ renderPath (fullPathIfDisabled base row.folderName) ++ v)) ∧
    (deleteAsset fs base cat entities categories assetId =
      .ok (fs, cat.filter (fun r => !(r.id == assetId)))) := by
  refine ⟨⟨?_, (toggleNotFoundMsg_contains _ _ _ _).1,
      (toggleNotFoundMsg_contains _ _ _ _).2⟩,
    ⟨?_, (relocateNotFoundMsg_contains _ _ _ _).1,
      (relocateNotFoundMsg_contains _ _ _ _).2⟩, ?_⟩
  · simp only [toggleAssetEnabled, hrow, hleaf]
    rw [if_neg hl0, hfe]
    simp only [Bool.false_eq_true, if_false]
    rw [hfd]
    simp
  · intro te hte
    cases htc : categories.find? (fun c => c.id == te.categoryId) with
    | none => exact Or.inr rfl
    | some tc =>
      left
      simp only [updateAssetInfo, getAssetLocationInfo, hrow, hent, hcat]
      have hneeds : (targetSlug != ent.slug) = true := by
        simp [hslug]
      simp only [hneeds, if_true, Option.getD]
      rw [Option.mem_def] at hte
      simp only [relocateStep, hte, htc, hleaf]
      rw [if_neg hl0, hfe]
      simp only [Bool.false_eq_true, if_false]
      rw [hfd]
      simp
  · simp only [deleteAsset, getAssetLocationInfo, hrow, hent, hcat, hleaf]
    rw [hfe]
    simp only [Bool.false_eq_true, if_false]
    rw [hfd]
    simp

/-- Witness for C9 (amended) at a concrete orphaned asset. -/
theorem single_target_orphan_behavior_witness :
    deleteAsset (fun _ => false) [] [⟨1, 1, [['m']], ['m']⟩]
      [⟨1, 1, ['e'], ['e']⟩, ⟨2, 1, ['f'], ['f']⟩] [⟨1, ['c'], ['c']⟩] 1 =
      .ok ((fun _ => false),
        ([⟨1, 1, [['m']], ['m']⟩] :
          List AssetRow).filter (fun r => !(r.id == 1))) :=
  (single_target_orphan_behavior (fun _ => false) [] [⟨1, 1, [['m']], ['m']⟩]
    [⟨1, 1, ['e'], ['e']⟩, ⟨2, 1, ['f'], ['f']⟩] [⟨1, ['c'], ['c']⟩] 1
    ['m'] ['n'] ⟨1, 1, [['m']], ['m']⟩ ⟨1, 1, ['e'], ['e']⟩ ⟨1, ['c'], ['c']⟩
    ['f'] ['m'] (by decide) (by decide) (by decide) (by decide) (by decide)
    (by decide) (by decide) (by decide)).2.2

/-! ## The canonical-path invariant (C1) -/

/-- A stored path is canonical when its leaf component does not carry the
`DISABLED_` prefix. -/
def CleanPath (p : FsPath) : Prop :=
  ∀ l, p.getLast? = some l → disabledMarker.isPrefixOf l = false

/-- Every asset row of the catalog stores a canonical path. -/
def CleanCatalog (cat : List AssetRow) : Prop :=
  ∀ r ∈ cat, CleanPath r.folderName

/-- The catalog-mutating operations the claim ranges over.  Toggling
performs no catalog write in the source, so its catalog effect is the
identity by construction. -/
inductive CatalogOp where
  | scanOp (nextId : Nat) (items : List ScanItem)
  | toggleOp (assetId : Nat) (uiName : Name)
  | relocateOp (assetId : Nat) (newName : Name)
      (newTargetEntitySlug : Option Name)

/-- The catalog state after one operation (an errored operation leaves the
catalog as it was). -/
def applyOp (fs : FS) (base : FsPath) (entities : List EntityRow)
    (categories : List CategoryRow) (cat : List AssetRow) :
    CatalogOp → List AssetRow
  | .scanOp nextId items => (scanMods cat nextId items).rows
  | .toggleOp _ _ => cat
  | .relocateOp assetId newName slug =>
    match updateAssetInfo fs base cat entities categories assetId newName slug with
    | .ok (_, cat2) => cat2
    | .error _ => cat

/-- The path the scan stores is always canonical: its leaf is the
`trim_start_matches(DISABLED_)` of the on-disk leaf. -/
theorem canonicalRelPath_clean (p : FsPath) : CleanPath (canonicalRelPath p) := by
  intro l hl
  unfold canonicalRelPath at hl
  cases hg : p.getLast? with
  | none => rw [hg] at hl; simp at hl
  | some leaf =>
    rw [hg, List.getLast?_concat] at hl
    injection hl with hl
    rw [← hl]
    exact trimStartMatches_clean disabledMarker disabledMarker_ne_nil leaf

theorem scanStep_clean {s : ScanState}
    (hs : ∀ r ∈ s.rows, CleanPath r.folderName) (it : ScanItem) :
    ∀ r ∈ (scanStep s it).rows, CleanPath r.folderName := by
  intro r hr
  by_cases hc : it.relPath ∈ s.processedPaths
  · exact hs r (by simpa [scanStep, hc] using hr)
  · cases hit : it.entityId with
    | none => exact hs r (by simpa [scanStep, hc, hit] using hr)
    | some eid =>
      cases hfind : findAsset s.rows eid (canonicalRelPath it.relPath) with
      | some r0 => exact hs r (by simpa [scanStep, hc, hit, hfind] using hr)
      | none =>
        simp only [scanStep, hc, hit, hfind] at hr
        simp [hc] at hr
        rcases hr with hr | hr
        · exact hs r hr
        · rw [hr]
          exact canonicalRelPath_clean it.relPath

theorem scan_foldl_clean :
    ∀ (l : List ScanItem) (s : ScanState),
      (∀ r ∈ s.rows, CleanPath r.folderName) →
      ∀ r ∈ (l.foldl scanStep s).rows, CleanPath r.folderName := by
  intro l
  induction l with
  | nil => intro s hs r hr; exact hs r (by simpa using hr)
  | cons it rest ih =>
    intro s hs r hr
    rw [List.foldl_cons] at hr
    exact ih (scanStep s it) (scanStep_clean hs it) r hr

theorem scanMods_clean (cat : List AssetRow) (nextId : Nat)
    (items : List ScanItem) (hinv : CleanCatalog cat) :
    CleanCatalog (scanMods cat nextId items).rows := by
  intro r hr
  have hr2 : r ∈ (items.foldl scanStep ⟨cat, nextId, [], [], 0, 0⟩).rows :=
    List.mem_of_mem_filter hr
  exact scan_foldl_clean items ⟨cat, nextId, [], [], 0, 0⟩ hinv r hr2

theorem relocateMove_ok_clean {fs : FS} {base : FsPath}
    {tcSlug targetSlug : Name} {teId : Nat} {leaf : Name} {src : FsPath}
    {fs2 : FS} {eid : Nat} {rel : FsPath}
    (h : relocateMove fs base tcSlug targetSlug teId leaf src =
      .ok (fs2, eid, rel)) : CleanPath rel := by
  unfold relocateMove at h
  dsimp only at h
  split at h
  all_goals
    split at h
    · cases h
    · injection h with h
      injection h with h1 h2
      injection h2 with h2 h3
      rw [← h3]
      intro l hl
      simp only [List.getLast?_cons_cons, List.getLast?_singleton,
        Option.some.injEq] at hl
      rw [← hl]
      exact trimStartMatches_clean disabledMarker disabledMarker_ne_nil leaf

theorem relocateStep_ok_clean {fs : FS} {base : FsPath}
    {entities : List EntityRow} {categories : List CategoryRow}
    {cur : AssetLocationInfo} {slug : Name} {fs2 : FS} {eid : Nat}
    {rel : FsPath}
    (h : relocateStep fs base entities categories cur slug = .ok (fs2, eid, rel)) :
    CleanPath rel := by
  unfold relocateStep at h
  split at h
  · cases h
  · split at h
    · cases h
    · split at h
      · cases h
      · split at h
        · cases h
        · split at h
          · exact relocateMove_ok_clean h
          · split at h
            · exact relocateMove_ok_clean h
            · cases h

theorem getAssetLocationInfo_path_mem {cat : List AssetRow}
    {entities : List EntityRow} {categories : List CategoryRow}
    {assetId : Nat} {cur : AssetLocationInfo}
    (h : getAssetLocationInfo cat entities categories assetId = some cur) :
    ∃ r ∈ cat, r.folderName = cur.cleanRelativePath := by
  unfold getAssetLocationInfo at h
  split at h
  · cases h
  · next r hr =>
    split at h
    · cases h
    · split at h
      · cases h
      · injection h with h
        exact ⟨r, List.mem_of_find?_eq_some hr, by rw [← h]⟩

theorem updateFinish_ok_clean {fs2 : FS} {base : FsPath}
    {cat : List AssetRow} {assetId : Nat} {newName : Name} {finalEid : Nat}
    {finalRel : FsPath} {fs2c : FS} {cat2 : List AssetRow}
    (h : updateFinish fs2 base cat assetId newName finalEid finalRel =
      .ok (fs2c, cat2))
    (hrel : CleanPath finalRel) (hinv : CleanCatalog cat) :
    CleanCatalog cat2 := by
  unfold updateFinish at h
  split at h
  · cases h
  · dsimp only at h
    split at h
    · injection h with h
      injection h with h1 h2
      rw [← h2]
      intro r' hr'
      rw [List.mem_map] at hr'
      obtain ⟨r, hrmem, hf⟩ := hr'
      by_cases hid : (r.id == assetId) = true
      · rw [← hf]
        simp only [hid, if_true]
        exact hrel
      · rw [← hf]
        simp only [hid, Bool.false_eq_true, if_false]
        exact hinv r hrmem
    · cases h

theorem updateAssetInfo_ok_clean {fs : FS} {base : FsPath}
    {cat : List AssetRow} {entities : List EntityRow}
    {categories : List CategoryRow} {assetId : Nat} {newName : Name}
    {slug : Option Name} {fs2 : FS} {cat2 : List AssetRow}
    (h : updateAssetInfo fs base cat entities categories assetId newName slug =
      .ok (fs2, cat2))
    (hinv : CleanCatalog cat) : CleanCatalog cat2 := by
  unfold updateAssetInfo at h
  split at h
  · cases h
  · next cur hloc =>
    have hrel0 : CleanPath cur.cleanRelativePath := by
      obtain ⟨r, hrmem, hrpath⟩ := getAssetLocationInfo_path_mem hloc
      rw [← hrpath]
      exact hinv r hrmem
    split at h
    · -- no target slug given
      exact updateFinish_ok_clean h hrel0 hinv
    · -- a target slug is given
      split at h
      · -- it differs: relocation
        split at h
        · cases h
        · next fs2' eid rel hstep =>
          exact updateFinish_ok_clean h (relocateStep_ok_clean hstep) hinv
      · exact updateFinish_ok_clean h hrel0 hinv

/-- C1: for every catalog state produced by scan (which strips the
`DISABLED_` prefix from the leaf before storing), toggle (which writes
nothing to the catalog) and relocate (which stores the clean leaf name),
the leaf component of every stored `folder_name` never carries the
`DISABLED_` prefix, regardless of the on-disk enabled/disabled state. -/
theorem canonical_path_invariant (fs : FS) (base : FsPath)
    (entities : List EntityRow) (categories : List CategoryRow)
    (cat : List AssetRow) (op : CatalogOp) (hinv : CleanCatalog cat) :
    CleanCatalog (applyOp fs base entities categories cat op) := by
  cases op with
  | scanOp nextId items =>
    exact scanMods_clean cat nextId items hinv
  | toggleOp assetId uiName =>
    exact hinv
  | relocateOp assetId newName slug =>
    cases hres : updateAssetInfo fs base cat entities categories assetId
        newName slug with
    | error m =>
      simp only [applyOp, hres]
      exact hinv
    | ok pr =>
      obtain ⟨fs2, cat2⟩ := pr
      simp only [applyOp, hres]
      exact updateAssetInfo_ok_clean hres hinv

/-- Witness for C1: scanning a folder whose on-disk name carries the
`DISABLED_` prefix still yields a catalog whose stored leaf is clean. -/
theorem canonical_path_invariant_witness :
    CleanCatalog (applyOp (fun _ => false) [] [] [] []
      (.scanOp 5 [⟨["DISABLED_x".toList], some 1, ['n']⟩])) :=
  canonical_path_invariant (fun _ => false) [] [] [] []
    (.scanOp 5 [⟨["DISABLED_x".toList], some 1, ['n']⟩])
    (by intro r hr; cases hr)

/-! ## Read-only statistics commands (`get_dashboard_stats`,
`get_entities_by_category_with_counts`) -/

/-- The payload of `get_dashboard_stats` (`category_counts` is a `HashMap`
in the source; here a list of pairs). -/
structure DashboardStats where
  totalMods : Nat
  enabledMods : Nat
  disabledMods : Nat
  uncategorizedMods : Nat
  categoryCounts : List (Name × Nat)
deriving DecidableEq, Repr

/-- `get_dashboard_stats` (main.rs 2452-2552): when the mods-folder setting
is absent it returns `Ok` with zeroed stats and an empty map; otherwise it
counts assets, the `%-other` bucket, per-category counts (categories with
zero assets omitted) and the enabled/disabled disk split (assets missing in
both forms counted in neither). -/
def getDashboardStats (modsFolderSetting : Option FsPath) (fs : FS)
    (cat : List AssetRow) (entities : List EntityRow)
    (categories : List CategoryRow) : Except (List Char) DashboardStats :=
  match modsFolderSetting with
  | none => .ok ⟨0, 0, 0, 0, []⟩
  | some base =>
    let totalMods := cat.length
    let uncategorizedMods := (cat.filter (fun r =>
      match entities.find? (fun e => e.id == r.entityId) with
      | some e => otherSuffix.isSuffixOf e.slug
      | none => false)).length
    let categoryCounts := categories.filterMap (fun c =>
      let k := (cat.filter (fun r =>
        match entities.find? (fun e => e.id == r.entityId) with
        | some e => e.categoryId == c.id
        | none => false)).length
      if k > 0 then some (c.name, k) else none)
    let counts := cat.foldl (fun (acc : Nat × Nat) r =>
      match r.folderName.getLast? with
      | none => acc
      | some leaf =>
        if leaf = [] then acc
        else
          match resolveState fs base r.folderName with
          | .enabled => (acc.1 + 1, acc.2)
          | .disabled => (acc.1, acc.2 + 1)
          | .orphaned => acc) (0, 0)
    .ok ⟨totalMods, counts.1, counts.2, uncategorizedMods, categoryCounts⟩

/-- The payload of `get_entities_by_category_with_counts`. -/
structure EntityWithCounts where
  id : Nat
  categoryId : Nat
  name : Name
  slug : Name
  totalMods : Nat
  enabledMods : Nat
deriving DecidableEq, Repr

/-- `get_entities_by_category_with_counts` (main.rs 2562-2664): when the
mods-folder setting is absent it returns `Ok []`; otherwise it resolves the
category, lists its entities (`-other` entities first; the secondary name
ordering is not modelled) and counts each entity's assets, an asset being
counted enabled iff its enabled-form path exists (only the enabled path is
probed here). -/
def getEntitiesByCategoryWithCounts (modsFolderSetting : Option FsPath)
    (categorySlug : Name) (fs : FS) (cat : List AssetRow)
    (entities : List EntityRow) (categories : List CategoryRow) :
    Except (List Char) (List EntityWithCounts) :=
  match modsFolderSetting with
  | none => .ok []
  | some base =>
    match categories.find? (fun c => c.slug == categorySlug) with
    | none => .error (chars "Category " ++ quoted categorySlug ++
        chars " not found")
    | some c =>
      let ents := entities.filter (fun e => e.categoryId == c.id)
      let ordered := ents.filter (fun e => otherSuffix.isSuffixOf e.slug) ++
        ents.filter (fun e => !(otherSuffix.isSuffixOf e.slug))
      .ok (ordered.map (fun e =>
        let folders := (cat.filter (fun r => r.entityId == e.id)).map
          AssetRow.folderName
        let enabledMods := (folders.filter (fun p =>
          match p.getLast? with
          | none => false
          | some leaf =>
            if leaf = [] then false
            else fs (fullPathIfEnabled base p))).length
        ⟨e.id, e.categoryId, e.name, e.slug, folders.length, enabledMods⟩))

/-- C10: with the mods-folder base path setting absent, the read-only
statistics commands degrade to empty success values instead of failing:
`get_dashboard_stats` returns `Ok` with all counts zero and an empty
category map, and `get_entities_by_category_with_counts` returns `Ok` with
an empty list, for every catalog state. -/
theorem stats_degrade_when_unset (fs : FS) (cat : List AssetRow)
    (entities : List EntityRow) (categories : List CategoryRow)
    (categorySlug : Name) :
    getDashboardStats none fs cat entities categories = .ok ⟨0, 0, 0, 0, []⟩ ∧
    getEntitiesByCategoryWithCounts none categorySlug fs cat entities
      categories = .ok [] :=
  ⟨rfl, rfl⟩

end GMM